import Mathlib

/-! Token lifecycle of the movies back end (`cmd/api/auth.go`, `cmd/api/middleware.go`).

A shallow embedding of the authentication core:

* `Auth.GenerateTokenPair`, `Auth.GetRefreshCookie`, `Auth.GetExpiredRefreshCookie`,
  `Auth.GetTokenFromHeaderAndVerify` from `cmd/api/auth.go`;
* `application.authRequired` from `cmd/api/middleware.go`.

Go values are embedded as follows.

* `string` is `String`; `[]byte(s)` is the UTF-8 encoding of `s`.
* `time.Time` is an integer count of nanoseconds since the Unix epoch, `time.Duration` an
  integer count of nanoseconds; `time.Now()` is an explicit argument, one per call site.
* `http.Header` is the list of its (key, value) pairs in insertion order, keys in canonical
  form; `http.ResponseWriter` is the record of the calls made on it.
* `error` is a datatype with one constructor per `errors.New` site and one for an error
  handed through from the JWT package; `Error()` gives the text.
* A run-time panic (index out of range) is the result `none`.

The imported package `github.com/golang-jwt/jwt/v5` is not part of the repository. Its
decoding, signature and signing primitives are parameters (`jwt.Lib`); the control flow of
its `ParseWithClaims` and the texts of its errors follow the published v5 sources.
-/

/-! ## Standard library: `strings`, `fmt`, `time` -/

namespace strings

/-- Pieces of a character list around every occurrence of `sep`; `n` separators give
`n + 1` pieces, the empty list gives one empty piece. -/
def splitChars (sep : Char) : List Char → List (List Char)
  | [] => [[]]
  | c :: cs =>
    if c = sep then [] :: splitChars sep cs
    else
      match splitChars sep cs with
      | [] => [[c]]
      | p :: ps => (c :: p) :: ps

/-- Go `strings.Split(s, sep)` for a separator of one character. -/
def Split (s : String) (sep : Char) : List String :=
  (splitChars sep s.data).map String.mk

/-- Go `strings.HasPrefix(s, pre)`. -/
def HasPrefix (s pre : String) : Bool :=
  pre.data.isPrefixOf s.data

end strings

namespace fmt

/-- Go `fmt.Sprint(n)` of an `int`: its decimal digits, with a leading minus sign when negative. -/
def Sprint (n : Int) : String := toString n

/-- The number that a string of decimal digits stands for, most significant digit first;
used to state what `Sprint` writes. -/
def decimalValue (s : String) : Nat :=
  s.data.foldl (fun acc c => acc * 10 + (c.toNat - '0'.toNat)) 0

/-- Go `fmt.Sprintf("%s %s", a, b)`. -/
def Sprintf_s_s (a b : String) : String := a ++ " " ++ b

end fmt

/-- Byte strings (`[]byte`). -/
abbrev Bytes := List UInt8

/-- Go conversion `[]byte(s)`. -/
def bytesOf (s : String) : Bytes := s.data.flatMap String.utf8EncodeChar

namespace time

/-- A `time.Time`, as nanoseconds since the Unix epoch. -/
abbrev Time := Int

/-- A `time.Duration`, in nanoseconds. -/
abbrev Duration := Int

/-- Constant `time.Second`. -/
def Second : Duration := 1000000000

/-- Constant `time.Minute`. -/
def Minute : Duration := 60 * Second

/-- Constant `time.Hour`. -/
def Hour : Duration := 60 * Minute

/-- Go `t.Add(d)`. -/
def Time.Add (t : Time) (d : Duration) : Time := t + d

/-- Go `t.Unix()`: whole seconds since the epoch, rounded down. -/
def Time.Unix (t : Time) : Int := t / 1000000000

/-- Go `time.Unix(sec, nsec)`. -/
def Unix (sec nsec : Int) : Time := sec * 1000000000 + nsec

end time

/-! ## `float64` arithmetic, for `Duration.Seconds`

Finite nonnegative values are kept as exact fractions; every operation rounds its exact
result to the nearest value with a 53-bit significand, ties to the even significand. The
values that occur lie far inside the normal range, so overflow and subnormals play no part. -/

namespace float64

/-- Position of the leading bit of `n`, with fuel for the recursion. -/
def log2Fuel : Nat → Nat → Nat
  | 0, _ => 0
  | fuel + 1, n => if 2 ≤ n then log2Fuel fuel (n / 2) + 1 else 0

/-- Position of the leading bit of `n`: the greatest `e` with `2 ^ e ≤ n`, for `0 < n`. -/
def log2 (n : Nat) : Nat := log2Fuel n n

/-- A nonnegative rational `num / den`, not necessarily in lowest terms. -/
structure Frac where
  num : Nat
  den : Nat
  deriving DecidableEq, Repr

/-- The greatest `e` with `2 ^ e ≤ q`, for `0 < q`. -/
def Frac.exponent (q : Frac) : Int :=
  let e0 : Int := (log2 q.num : Int) - (log2 q.den : Int)
  let reached : Bool :=
    if 0 ≤ e0 then decide (2 ^ e0.toNat * q.den ≤ q.num)
    else decide (q.den ≤ q.num * 2 ^ (-e0).toNat)
  if reached then e0 else e0 - 1

/-- The fraction `q / 2 ^ k`. -/
def Frac.scale (q : Frac) (k : Int) : Frac :=
  if 0 ≤ k then ⟨q.num, q.den * 2 ^ k.toNat⟩ else ⟨q.num * 2 ^ (-k).toNat, q.den⟩

/-- The integer nearest to `q`, the even one of the two when `q` lies half way. -/
def Frac.roundHalfEven (q : Frac) : Nat :=
  let f := q.num / q.den
  let r := q.num % q.den
  if 2 * r < q.den then f else if q.den < 2 * r then f + 1 else f + f % 2

/-- The `float64` nearest to `q`: its significand is `q / 2 ^ k` rounded, where `k` puts
the leading bit of `q` at position 52. -/
def round (q : Frac) : Frac :=
  if q.num = 0 then ⟨0, 1⟩
  else
    let k := q.exponent - 52
    Frac.scale ⟨(q.scale k).roundHalfEven, 1⟩ (-k)

/-- Conversion `float64(n)` of a nonnegative integer. -/
def ofNat (n : Nat) : Frac := round ⟨n, 1⟩

/-- Sum `a + b` of two `float64` values. -/
def add (a b : Frac) : Frac := round ⟨a.num * b.den + b.num * a.den, a.den * b.den⟩

/-- Quotient `a / b` of two `float64` values, `b` not zero. -/
def div (a b : Frac) : Frac := round ⟨a.num * b.den, a.den * b.num⟩

/-- Conversion `int(x)` of a nonnegative value: the fraction is dropped. -/
def Frac.trunc (q : Frac) : Nat := q.num / q.den

end float64

namespace time

/-- Absolute value of Go `d.Seconds()`, which is
`float64(d / Second) + float64(d % Second) / 1e9` with the quotient truncated and the
remainder of the sign of `d`: both terms have the sign of `d`, and rounding is symmetric. -/
def Duration.SecondsAbs (d : Duration) : float64.Frac :=
  let sec := d.natAbs / 1000000000
  let nsec := d.natAbs % 1000000000
  float64.add (float64.ofNat sec) (float64.div (float64.ofNat nsec) (float64.ofNat 1000000000))

/-- Go `int(d.Seconds())`: the seconds of `d` as a `float64`, truncated toward zero. -/
def Duration.SecondsInt (d : Duration) : Int :=
  if d < 0 then -((Duration.SecondsAbs d).trunc : Int) else ((Duration.SecondsAbs d).trunc : Int)

end time

/-! ## `net/http` -/

namespace http

/-- An `http.Header`: its (canonical key, value) pairs, in the order they were added. -/
abbrev Header := List (String × String)

/-- Go `h.Get(key)`: the first value under `key`, or the empty string. -/
def Header.Get (h : Header) (key : String) : String :=
  match h.find? (fun p => p.1 = key) with
  | some p => p.2
  | none => ""

/-- Go `h.Add(key, value)`: appends `value` to the values under `key`. -/
def Header.Add (h : Header) (key value : String) : Header :=
  h ++ [(key, value)]

/-- Go `h.Values(key)`: all values under `key`. -/
def Header.Values (h : Header) (key : String) : List String :=
  (h.filter (fun p => p.1 = key)).map (fun p => p.2)

/-- The part of an `*http.Request` the authentication core reads. -/
structure Request where
  Method : String
  Header : Header
  deriving DecidableEq, Repr

/-- An `http.ResponseWriter`, as the record of what has been done through it: the response
header map, the status codes passed to `WriteHeader` and the chunks passed to `Write`. -/
structure ResponseWriter where
  header : Header
  statusCodes : List Nat
  body : List Bytes
  deriving DecidableEq, Repr

/-- Go `w.Header().Add(key, value)`. -/
def ResponseWriter.AddHeader (w : ResponseWriter) (key value : String) : ResponseWriter :=
  { w with header := w.header.Add key value }

/-- Go `w.WriteHeader(code)`. -/
def ResponseWriter.WriteHeader (w : ResponseWriter) (code : Nat) : ResponseWriter :=
  { w with statusCodes := w.statusCodes ++ [code] }

/-- Constant `http.StatusUnauthorized`. -/
def StatusUnauthorized : Nat := 401

/-- Cookie attribute `http.SameSite`. -/
inductive SameSite
  | SameSiteDefaultMode
  | SameSiteLaxMode
  | SameSiteStrictMode
  | SameSiteNoneMode
  deriving DecidableEq, Repr

/-- An `http.Cookie`; fields the code leaves out hold their zero value. -/
structure Cookie where
  Name : String
  Value : String
  Path : String
  Domain : String
  Expires : time.Time
  MaxAge : Int
  Secure : Bool
  HttpOnly : Bool
  SameSite : SameSite
  deriving DecidableEq, Repr

end http

/-! ## The imported package `github.com/golang-jwt/jwt/v5` -/

namespace jwt

/-- The concrete types behind the `SigningMethod` interface that the package registers:
`*SigningMethodHMAC` (HS256, HS384, HS512), `*SigningMethodRSA` (RS*), `*SigningMethodRSAPSS`
(PS*), `*SigningMethodECDSA` (ES*), `*SigningMethodEd25519` (EdDSA) and the type of the
`none` method. -/
inductive SigningMethod
  | HMAC
  | RSA
  | RSAPSS
  | ECDSA
  | Ed25519
  | None
  deriving DecidableEq, Repr

/-- The fields of `jwt.RegisteredClaims`; an absent date is `none`. -/
structure RegisteredClaims where
  Issuer : String
  Subject : String
  Audience : List String
  ExpiresAt : Option time.Time
  NotBefore : Option time.Time
  IssuedAt : Option time.Time
  ID : String
  deriving DecidableEq, Repr

/-- A decoded `jwt.Token`: the signing method found for the header's `alg` entry, that
entry, and the claims decoded from the payload. -/
structure Token where
  Raw : String
  Method : SigningMethod
  alg : String
  Claims : RegisteredClaims
  deriving DecidableEq, Repr

/-- The sentinel errors a parse can be wrapped in (`errors.go`). -/
inductive Sentinel
  | ErrTokenMalformed
  | ErrTokenUnverifiable
  | ErrTokenSignatureInvalid
  | ErrTokenInvalidClaims
  deriving DecidableEq, Repr

/-- The text of a sentinel error. -/
def Sentinel.text : Sentinel → String
  | .ErrTokenMalformed => "token is malformed"
  | .ErrTokenUnverifiable => "token is unverifiable"
  | .ErrTokenSignatureInvalid => "token signature is invalid"
  | .ErrTokenInvalidClaims => "token has invalid claims"

/-- Text of `ErrTokenExpired`. -/
def ErrTokenExpired : String := "token is expired"

/-- Text of `ErrTokenNotValidYet`. -/
def ErrTokenNotValidYet : String := "token is not valid yet"

/-- An error returned by the parser: a sentinel wrapping a detail. -/
structure Error where
  kind : Sentinel
  detail : String
  deriving DecidableEq, Repr

set_option linter.dupNamespace false in
/-- Go `err.Error()` of a parser error: the sentinel text, then a colon and the detail. -/
def Error.Error (e : Error) : String :=
  if e.detail = "" then e.kind.text else e.kind.text ++ ": " ++ e.detail

/-- A `jwt.MapClaims` value: a string or an integer. -/
inductive Value
  | str (s : String)
  | num (n : Int)
  deriving DecidableEq, Repr

/-- A `jwt.MapClaims`, as the list of its entries. -/
abbrev MapClaims := List (String × Value)

/-- Go `claims[key] = v` on a map. -/
def MapClaims.set (m : MapClaims) (key : String) (v : Value) : MapClaims :=
  if m.any (fun p => p.1 = key) then m.map (fun p => if p.1 = key then (key, v) else p)
  else m ++ [(key, v)]

/-- Go `claims[key]`. -/
def MapClaims.get (m : MapClaims) (key : String) : Option Value :=
  (m.find? (fun p => p.1 = key)).map (fun p => p.2)

/-- The keys of a map. -/
def MapClaims.keys (m : MapClaims) : List String := m.map (fun p => p.1)

/-- The primitives of the package that the embedding leaves open.

* `decode` stands for `Parser.ParseUnverified` followed by the decoding of the signature
  segment: splitting the compact form, base64 and JSON decoding, and the lookup of the
  signing method for the header's `alg`.
* `verify tok key` stands for `tok.Method.Verify` on the signing string and signature of
  `tok`: `none` when the signature is good under `key`, else the text of the error.
* `now` is the reading of the clock taken by the claims validator.
* `sign claims key` stands for `SignedString` on a token made by `jwt.New(SigningMethodHS256)`
  with the given claims. -/
structure Lib where
  decode : String → Except Error Token
  verify : Token → Bytes → Option String
  now : time.Time
  sign : MapClaims → Bytes → Except String String

/-- The type `jwt.Keyfunc`. -/
abbrev Keyfunc := Token → Except String Bytes

/-- The default `Validator.Validate` on registered claims: the expiry and not-before
checks, each only when the claim is present; the texts of the failed checks. -/
def Validate (now : time.Time) (c : RegisteredClaims) : List String :=
  (match c.ExpiresAt with
    | some exp => if now < exp then [] else [ErrTokenExpired]
    | none => []) ++
  (match c.NotBefore with
    | some nbf => if now < nbf then [ErrTokenNotValidYet] else []
    | none => [])

/-- Go `jwt.ParseWithClaims(tokenString, claims, keyFunc)` with the default parser: decode,
look up the key, verify the signature, validate the claims. Returns the claims read into
`claims`, or the error. -/
def ParseWithClaims (lib : Lib) (tokenString : String) (keyFunc : Keyfunc) :
    Except Error RegisteredClaims :=
  match lib.decode tokenString with
  | .error e => .error e
  | .ok token =>
    match keyFunc token with
    | .error e => .error ⟨.ErrTokenUnverifiable, "error while executing keyfunc: " ++ e⟩
    | .ok key =>
      match lib.verify token key with
      | some e => .error ⟨.ErrTokenSignatureInvalid, e⟩
      | none =>
        match Validate lib.now token.Claims with
        | [] => .ok token.Claims
        | errs => .error ⟨.ErrTokenInvalidClaims, ", ".intercalate errs⟩

end jwt

/-! ## `cmd/api/auth.go` -/

/-- The configuration `Auth`. -/
structure Auth where
  Issuer : String
  Audience : String
  Secret : String
  TokenExpiry : time.Duration
  RefreshExpiry : time.Duration
  CookieDomain : String
  CookiePath : String
  CookieName : String
  deriving DecidableEq, Repr

/-- The minimum data required to issue a token. -/
structure jwtUser where
  ID : Int
  FirstName : String
  LastName : String
  deriving DecidableEq, Repr

/-- The pair of signed tokens. -/
structure TokenPairs where
  Token : String
  RefreshToken : String
  deriving DecidableEq, Repr

/-- The type `Claims`: it embeds `jwt.RegisteredClaims`. -/
structure Claims where
  RegisteredClaims : jwt.RegisteredClaims
  deriving DecidableEq, Repr

/-- The error values `GetTokenFromHeaderAndVerify` can return: one per `errors.New` site,
and `passed e` for the parser's error `e` returned as it is. -/
inductive AuthError
  | noAuthHeader
  | invalidAuthHeader
  | expiredToken
  | invalidIssuer
  | passed (e : jwt.Error)
  deriving DecidableEq, Repr

/-- Go `err.Error()`. -/
def AuthError.Error : AuthError → String
  | .noAuthHeader => "no auth header"
  | .invalidAuthHeader => "invalid auth header"
  | .expiredToken => "expired token"
  | .invalidIssuer => "invalid issuer"
  | .passed e => e.Error

/-- The three results of `GetTokenFromHeaderAndVerify`; a nil pointer or nil error is `none`. -/
structure VerifyResult where
  token : String
  claims : Option Claims
  err : Option AuthError
  deriving DecidableEq, Repr

namespace Auth

/-- The key-lookup function literal passed to `jwt.ParseWithClaims`
(`auth.go`, lines 167-173). -/
def keyFunc (j : Auth) : jwt.Keyfunc := fun token =>
  match token.Method with
  | .HMAC => .ok (bytesOf j.Secret)
  | _ => .error ("unexpected signing method " ++ token.alg)

/-- What `GetTokenFromHeaderAndVerify` does with the token taken from the header
(`auth.go`, lines 163-188). -/
def verifyToken (lib : jwt.Lib) (j : Auth) (token : String) : VerifyResult :=
  match jwt.ParseWithClaims lib token j.keyFunc with
  | .error err =>
    if strings.HasPrefix err.Error "token is expired by" then
      ⟨"", none, some .expiredToken⟩
    else
      ⟨"", none, some (.passed err)⟩
  | .ok claims =>
    if claims.Issuer ≠ j.Issuer then
      ⟨"", none, some .invalidIssuer⟩
    else
      ⟨token, some ⟨claims⟩, none⟩

/-- The method `GetTokenFromHeaderAndVerify`: the response writer after the call and the
three results, or `none` for an index out of range. -/
def GetTokenFromHeaderAndVerify (lib : jwt.Lib) (j : Auth) (w : http.ResponseWriter)
    (r : http.Request) : Option (http.ResponseWriter × VerifyResult) :=
  let w := w.AddHeader "Vary" "Authorization"
  let authHeader := r.Header.Get "Authorization"
  if authHeader = "" then
    some (w, ⟨"", none, some .noAuthHeader⟩)
  else
    let headerParts := strings.Split authHeader ' '
    if headerParts.length ≠ 2 then
      some (w, ⟨"", none, some .invalidAuthHeader⟩)
    else
      match headerParts[0]? with
      | none => none
      | some scheme =>
        if scheme ≠ "Bearer" then
          some (w, ⟨"", none, some .invalidAuthHeader⟩)
        else
          match headerParts[1]? with
          | none => none
          | some token => some (w, verifyToken lib j token)

end Auth

namespace Auth

/-- The claims `GenerateTokenPair` sets on the access token (`auth.go`, lines 52-66);
`now1` and `now2` are the two readings of `time.Now()`, in the order they are taken. -/
def accessClaims (j : Auth) (user : jwtUser) (now1 now2 : time.Time) : jwt.MapClaims :=
  let claims : jwt.MapClaims := []
  let claims := claims.set "name" (.str (fmt.Sprintf_s_s user.FirstName user.LastName))
  let claims := claims.set "sub" (.str (fmt.Sprint user.ID))
  let claims := claims.set "aud" (.str j.Audience)
  let claims := claims.set "iss" (.str j.Issuer)
  let claims := claims.set "iat" (.num (time.Time.Unix now1))
  let claims := claims.set "typ" (.str "JWT")
  claims.set "exp" (.num (time.Time.Unix (time.Time.Add now2 j.TokenExpiry)))

/-- The claims `GenerateTokenPair` sets on the refresh token (`auth.go`, lines 75-81);
`now3` and `now4` are its two readings of `time.Now()`. -/
def refreshTokenClaims (j : Auth) (user : jwtUser) (now3 now4 : time.Time) : jwt.MapClaims :=
  let refreshTokenClaims : jwt.MapClaims := []
  let refreshTokenClaims := refreshTokenClaims.set "sub" (.str (fmt.Sprint user.ID))
  let refreshTokenClaims := refreshTokenClaims.set "iat" (.num (time.Time.Unix now3))
  refreshTokenClaims.set "exp" (.num (time.Time.Unix (time.Time.Add now4 j.RefreshExpiry)))

/-- The method `GenerateTokenPair`; `now1` to `now4` are the four readings of `time.Now()`
in the order the function takes them. -/
def GenerateTokenPair (lib : jwt.Lib) (j : Auth) (user : jwtUser)
    (now1 now2 now3 now4 : time.Time) : Except String TokenPairs :=
  match lib.sign (j.accessClaims user now1 now2) (bytesOf j.Secret) with
  | .error err => .error err
  | .ok signedAccessToken =>
    match lib.sign (j.refreshTokenClaims user now3 now4) (bytesOf j.Secret) with
    | .error err => .error err
    | .ok signedRefreshToken => .ok ⟨signedAccessToken, signedRefreshToken⟩

/-- The method `GetRefreshCookie`; `now` is the reading of `time.Now()`. -/
def GetRefreshCookie (j : Auth) (refreshToken : String) (now : time.Time) : http.Cookie :=
  { Name := j.CookieName
    Path := j.CookiePath
    Value := refreshToken
    Expires := time.Time.Add now j.RefreshExpiry
    MaxAge := time.Duration.SecondsInt j.RefreshExpiry
    SameSite := .SameSiteLaxMode
    Domain := ""
    HttpOnly := true
    Secure := true }

/-- The method `GetExpiredRefreshCookie`. -/
def GetExpiredRefreshCookie (j : Auth) : http.Cookie :=
  { Name := j.CookieName
    Path := j.CookiePath
    Value := ""
    Expires := time.Unix 0 0
    MaxAge := -1
    SameSite := .SameSiteLaxMode
    Domain := ""
    HttpOnly := true
    Secure := true }

end Auth

/-! ## `cmd/api/middleware.go` -/

/-- The part of the type `application` the middleware reads. -/
structure application where
  Domain : String
  auth : Auth
  deriving DecidableEq, Repr

/-- An `http.Handler`: `ServeHTTP(w, r)` acts on the response writer and on the rest of the
program state `σ`; `none` is a panic. -/
abbrev Handler (σ : Type) := σ → http.ResponseWriter → http.Request → Option (σ × http.ResponseWriter)

/-- The middleware `authRequired`: the handler it returns. -/
def application.authRequired {σ : Type} (lib : jwt.Lib) (app : application)
    (next : Handler σ) : Handler σ := fun s w r =>
  match app.auth.GetTokenFromHeaderAndVerify lib w r with
  | none => none
  | some (w, res) =>
    match res.err with
    | some _ => some (s, w.WriteHeader http.StatusUnauthorized)
    | none => next s w r

/-- A handler that only records the requests it is invoked with. -/
def recordingHandler : Handler (List http.Request) := fun log w r => some (log ++ [r], w)

/-! ## Sample values -/

/-- A stand-in for the package primitives, for running the code on concrete requests. It
decodes `abc.def.ghi` as an HS256 token and `rsa.def.ghi` as an RS256 token, both issued by
`example.com` at instant 1000 and expiring at instant 2000, and `xyz.def.ghi` as an HS256
token of the issuer `other.org`; a signature is good exactly under the key `verysecret`. -/
def sampleLib (now : time.Time) : jwt.Lib where
  decode := fun s =>
    if s = "abc.def.ghi" then
      .ok ⟨s, .HMAC, "HS256", ⟨"example.com", "42", ["example.com"], some 2000, none, some 1000, ""⟩⟩
    else if s = "rsa.def.ghi" then
      .ok ⟨s, .RSA, "RS256", ⟨"example.com", "42", ["example.com"], some 2000, none, some 1000, ""⟩⟩
    else if s = "xyz.def.ghi" then
      .ok ⟨s, .HMAC, "HS256", ⟨"other.org", "42", ["example.com"], some 2000, none, some 1000, ""⟩⟩
    else .error ⟨.ErrTokenMalformed, "token contains an invalid number of segments"⟩
  verify := fun _ key => if key = bytesOf "verysecret" then none else some "signature is invalid"
  now := now
  sign := fun _ _ => .ok "abc.def.ghi"

/-- The policy that `main` builds from the default flags (`main.go`, lines 58-70). -/
def sampleAuth : Auth :=
  { Issuer := "example.com"
    Audience := "example.com"
    Secret := "verysecret"
    TokenExpiry := time.Minute * 15
    RefreshExpiry := time.Hour * 24
    CookiePath := "/"
    CookieName := "gus_refresh_token"
    CookieDomain := "localhost" }

/-- The claims the sample package reads from `abc.def.ghi`. -/
def sampleClaims : jwt.RegisteredClaims :=
  ⟨"example.com", "42", ["example.com"], some 2000, none, some 1000, ""⟩

/-- A response writer on which nothing has been done. -/
def emptyWriter : http.ResponseWriter := ⟨[], [], []⟩

/-- A GET request whose only header is `Authorization`, with the given value. -/
def requestWith (authorization : String) : http.Request :=
  ⟨"GET", [("Authorization", authorization)]⟩

/-- A GET request without any header. -/
def bareRequest : http.Request := ⟨"GET", []⟩

/-- The identity of the end-to-end scenario. -/
def ada : jwtUser := ⟨42, "Ada", "Lovelace"⟩

/-- A second stand-in for the package primitives: it decodes three HS256 tokens that differ
in their audience only, `abc.def.ghi` (audience `example.com`), `aud.def.ghi` (audience
`elsewhere.net`) and `nil.def.ghi` (no audience); a signature is good exactly under the key
`verysecret`. -/
def audienceLib (now : time.Time) : jwt.Lib where
  decode := fun s =>
    if s = "abc.def.ghi" then .ok ⟨s, .HMAC, "HS256", sampleClaims⟩
    else if s = "aud.def.ghi" then
      .ok ⟨s, .HMAC, "HS256", { sampleClaims with Audience := ["elsewhere.net"] }⟩
    else if s = "nil.def.ghi" then
      .ok ⟨s, .HMAC, "HS256", { sampleClaims with Audience := [] }⟩
    else .error ⟨.ErrTokenMalformed, "token contains an invalid number of segments"⟩
  verify := fun _ key => if key = bytesOf "verysecret" then none else some "signature is invalid"
  now := now
  sign := fun _ _ => .ok "abc.def.ghi"

/-- A response writer whose header map already holds two values. -/
def usedWriter : http.ResponseWriter :=
  ⟨[("Vary", "Origin"), ("Access-Control-Allow-Origin", "http://localhost:3000")], [], []⟩

/-! ## Lemmas on header splitting -/

namespace strings

theorem splitChars_ne_nil (sep : Char) (l : List Char) : splitChars sep l ≠ [] := by
  cases l with
  | nil => simp [splitChars]
  | cons c cs =>
    unfold splitChars
    split
    · simp
    · split <;> simp

theorem splitChars_of_not_mem (sep : Char) (l : List Char) (h : sep ∉ l) :
    splitChars sep l = [l] := by
  induction l with
  | nil => rfl
  | cons c cs ih =>
    have hc : c ≠ sep := fun e => h (by simp [e])
    have hcs : sep ∉ cs := fun m => h (List.mem_cons_of_mem _ m)
    simp [splitChars, hc, ih hcs]

theorem splitChars_append_sep (sep : Char) (a b : List Char) (h : sep ∉ a) :
    splitChars sep (a ++ sep :: b) = a :: splitChars sep b := by
  induction a with
  | nil => simp [splitChars]
  | cons c cs ih =>
    have hc : c ≠ sep := fun e => h (by simp [e])
    have hcs : sep ∉ cs := fun m => h (List.mem_cons_of_mem _ m)
    simp [splitChars, hc, ih hcs]

theorem Split_bearer (t : String) (h : ' ' ∉ t.data) :
    Split ("Bearer " ++ t) ' ' = ["Bearer", t] := by
  have hd : ("Bearer " ++ t).data = ['B', 'e', 'a', 'r', 'e', 'r'] ++ ' ' :: t.data := by
    simp [String.data_append]
  have hb : (' ' : Char) ∉ ['B', 'e', 'a', 'r', 'e', 'r'] := by decide
  unfold Split
  rw [hd, splitChars_append_sep _ _ _ hb, splitChars_of_not_mem _ _ h]
  rfl

end strings

/-! ## The request authenticator -/

/-- Claim C1. For a request whose `Authorization` header is `Bearer <t>`, where `t` (a
compact token, hence free of spaces) passes the package's verification under the key
callback of the policy with decoded claims `c`: the call does not panic, adds the `Vary`
header, and succeeds exactly when the issuer of `c` is the policy's `Issuer`. On success it
returns `t` and the claims; otherwise it returns the error `invalid issuer` with the empty
token string and nil claims. -/
theorem C1_issuer_checked (lib : jwt.Lib) (j : Auth) (w : http.ResponseWriter)
    (r : http.Request) (t : String) (c : jwt.RegisteredClaims)
    (hheader : r.Header.Get "Authorization" = "Bearer " ++ t)
    (hcompact : ' ' ∉ t.data)
    (hverified : jwt.ParseWithClaims lib t j.keyFunc = .ok c) :
    ∃ res : VerifyResult,
      j.GetTokenFromHeaderAndVerify lib w r = some (w.AddHeader "Vary" "Authorization", res) ∧
      (res.err = none ↔ c.Issuer = j.Issuer) ∧
      (c.Issuer = j.Issuer → res = ⟨t, some ⟨c⟩, none⟩) ∧
      (c.Issuer ≠ j.Issuer →
        res = ⟨"", none, some .invalidIssuer⟩ ∧
        AuthError.invalidIssuer.Error = "invalid issuer") := by
  have hne : "Bearer " ++ t ≠ "" := by
    intro h
    have := congrArg String.data h
    simp [String.data_append] at this
  refine ⟨j.verifyToken lib t, ?_, ?_, ?_, ?_⟩
  · simp [Auth.GetTokenFromHeaderAndVerify, hheader, hne, strings.Split_bearer t hcompact]
  · by_cases hi : c.Issuer = j.Issuer <;> simp [Auth.verifyToken, hverified, hi]
  · intro hi
    simp [Auth.verifyToken, hverified, hi]
  · intro hi
    refine ⟨?_, rfl⟩
    simp [Auth.verifyToken, hverified, hi]

/-- Witness for C1: under the default policy and inside the lifetime, the sample token of
the issuer `example.com` is accepted and the sample token of the issuer `other.org` is
refused with `invalid issuer`. -/
theorem C1_issuer_checked_witness :
    sampleAuth.GetTokenFromHeaderAndVerify (sampleLib 1500) emptyWriter
        (requestWith "Bearer abc.def.ghi") =
      some (emptyWriter.AddHeader "Vary" "Authorization",
        ⟨"abc.def.ghi", some ⟨sampleClaims⟩, none⟩) ∧
    sampleAuth.GetTokenFromHeaderAndVerify (sampleLib 1500) emptyWriter
        (requestWith "Bearer xyz.def.ghi") =
      some (emptyWriter.AddHeader "Vary" "Authorization",
        ⟨"", none, some .invalidIssuer⟩) := by
  constructor
  · obtain ⟨res, hcall, -, hok, -⟩ :=
      C1_issuer_checked (sampleLib 1500) sampleAuth emptyWriter
        (requestWith "Bearer abc.def.ghi") "abc.def.ghi" sampleClaims
        (by decide) (by decide) (by rfl)
    rw [hcall, hok (by decide)]
  · obtain ⟨res, hcall, -, -, hbad⟩ :=
      C1_issuer_checked (sampleLib 1500) sampleAuth emptyWriter
        (requestWith "Bearer xyz.def.ghi") "xyz.def.ghi"
        { sampleClaims with Issuer := "other.org" } (by decide) (by decide) (by rfl)
    rw [hcall, (hbad (by decide)).1]

/-- The result of the token check is never the malformed-header error. -/
theorem Auth.verifyToken_ne_invalidAuthHeader (lib : jwt.Lib) (j : Auth) (token : String) :
    (j.verifyToken lib token).err ≠ some .invalidAuthHeader := by
  unfold Auth.verifyToken
  split
  · split <;> simp
  · split <;> simp

/-- The call never panics: both indexings of the split header are in range. -/
theorem Auth.GetTokenFromHeaderAndVerify_isSome (lib : jwt.Lib) (j : Auth)
    (w : http.ResponseWriter) (r : http.Request) :
    ∃ res, j.GetTokenFromHeaderAndVerify lib w r = some (w.AddHeader "Vary" "Authorization", res) := by
  unfold Auth.GetTokenFromHeaderAndVerify
  by_cases h0 : r.Header.Get "Authorization" = ""
  · simp [h0]
  · by_cases h2 : (strings.Split (r.Header.Get "Authorization") ' ').length ≠ 2
    · simp [h0, h2]
    · have hlen : (strings.Split (r.Header.Get "Authorization") ' ').length = 2 := by
        simpa using h2
      obtain ⟨a, b, hab⟩ := List.length_eq_two.mp hlen
      by_cases hb : a = "Bearer" <;> simp [h0, hab, hb]

/-- Claim C2. For a non-empty `Authorization` value the call returns the error
`invalid auth header` (with the empty token string and nil claims) exactly when the value,
split on single spaces, does not give two parts or the first part is not `Bearer`; the
package is not consulted then, the result being the same under every package. Otherwise the
second part goes to verification. No request makes an index go out of range. `Bearer`
alone, `Basic abc`, `bearer abc` and `Bearer  abc` are malformed; `Bearer abc.def.ghi` is
verified. -/
theorem C2_malformed_header (lib : jwt.Lib) (j : Auth) (w : http.ResponseWriter)
    (r : http.Request) (hne : r.Header.Get "Authorization" ≠ "") :
    (∃ res : VerifyResult,
      j.GetTokenFromHeaderAndVerify lib w r = some (w.AddHeader "Vary" "Authorization", res) ∧
      (res.err = some .invalidAuthHeader ↔
        ((strings.Split (r.Header.Get "Authorization") ' ').length ≠ 2 ∨
          (strings.Split (r.Header.Get "Authorization") ' ').head? ≠ some "Bearer")) ∧
      (((strings.Split (r.Header.Get "Authorization") ' ').length ≠ 2 ∨
          (strings.Split (r.Header.Get "Authorization") ' ').head? ≠ some "Bearer") →
        ∀ lib0 : jwt.Lib, j.GetTokenFromHeaderAndVerify lib0 w r =
          some (w.AddHeader "Vary" "Authorization", ⟨"", none, some .invalidAuthHeader⟩)) ∧
      (¬((strings.Split (r.Header.Get "Authorization") ' ').length ≠ 2 ∨
          (strings.Split (r.Header.Get "Authorization") ' ').head? ≠ some "Bearer") →
        ∃ token, strings.Split (r.Header.Get "Authorization") ' ' = ["Bearer", token] ∧
          res = j.verifyToken lib token)) ∧
    AuthError.invalidAuthHeader.Error = "invalid auth header" ∧
    (∀ r0 : http.Request, j.GetTokenFromHeaderAndVerify lib w r0 ≠ none) ∧
    (∀ value ∈ ["Bearer", "Basic abc", "bearer abc", "Bearer  abc"],
      j.GetTokenFromHeaderAndVerify lib w (requestWith value) =
        some (w.AddHeader "Vary" "Authorization", ⟨"", none, some .invalidAuthHeader⟩)) ∧
    j.GetTokenFromHeaderAndVerify lib w (requestWith "Bearer abc.def.ghi") =
      some (w.AddHeader "Vary" "Authorization", j.verifyToken lib "abc.def.ghi") := by
  refine ⟨?_, rfl, ?_, ?_, ?_⟩
  · by_cases h2 : (strings.Split (r.Header.Get "Authorization") ' ').length ≠ 2
    · have hres : ∀ lib0 : jwt.Lib, j.GetTokenFromHeaderAndVerify lib0 w r =
          some (w.AddHeader "Vary" "Authorization", ⟨"", none, some .invalidAuthHeader⟩) := by
        intro lib0
        simp [Auth.GetTokenFromHeaderAndVerify, hne, h2]
      exact ⟨_, hres lib, by simp [h2], fun _ => hres, fun h => absurd (Or.inl h2) h⟩
    · have hlen : (strings.Split (r.Header.Get "Authorization") ' ').length = 2 := by
        simpa using h2
      obtain ⟨a, b, hab⟩ := List.length_eq_two.mp hlen
      by_cases hb : a = "Bearer"
      · subst hb
        refine ⟨j.verifyToken lib b, ?_, ?_, ?_, ?_⟩
        · simp [Auth.GetTokenFromHeaderAndVerify, hne, hab]
        · simp [hab, Auth.verifyToken_ne_invalidAuthHeader]
        · intro h
          simp [hab] at h
        · intro _
          exact ⟨b, hab, rfl⟩
      · have hres : ∀ lib0 : jwt.Lib, j.GetTokenFromHeaderAndVerify lib0 w r =
            some (w.AddHeader "Vary" "Authorization", ⟨"", none, some .invalidAuthHeader⟩) := by
          intro lib0
          simp [Auth.GetTokenFromHeaderAndVerify, hne, hab, hb]
        refine ⟨_, hres lib, ?_, fun _ => hres, ?_⟩
        · simp [hab, hb]
        · intro h
          simp [hab, hb] at h
  · intro r0
    obtain ⟨res, hres⟩ := Auth.GetTokenFromHeaderAndVerify_isSome lib j w r0
    simp [hres]
  · intro value hv
    simp only [List.mem_cons, List.mem_singleton, List.not_mem_nil, or_false] at hv
    rcases hv with h | h | h | h <;> subst h <;> rfl
  · rfl

/-- Witness for C2: the header `Basic abc`. -/
theorem C2_malformed_header_witness :
    (requestWith "Basic abc").Header.Get "Authorization" ≠ "" ∧
    sampleAuth.GetTokenFromHeaderAndVerify (sampleLib 1500) emptyWriter (requestWith "Basic abc") =
      some (emptyWriter.AddHeader "Vary" "Authorization", ⟨"", none, some .invalidAuthHeader⟩) :=
  ⟨by decide,
    (C2_malformed_header (sampleLib 1500) sampleAuth emptyWriter (requestWith "Basic abc")
      (by decide)).2.2.2.1 "Basic abc" (by decide)⟩

/-- Claim C3. A request without an `Authorization` header, or with an empty one, gets the
error `no auth header` with the empty token string and nil claims, whatever the rest of the
request, the policy and the package are: no later step is reached. -/
theorem C3_missing_header (lib : jwt.Lib) (j : Auth) (w : http.ResponseWriter)
    (r : http.Request)
    (hmissing : r.Header.Values "Authorization" = [] ∨ r.Header.Get "Authorization" = "") :
    j.GetTokenFromHeaderAndVerify lib w r =
      some (w.AddHeader "Vary" "Authorization", ⟨"", none, some .noAuthHeader⟩) ∧
    AuthError.noAuthHeader.Error = "no auth header" := by
  have hget : r.Header.Get "Authorization" = "" := by
    rcases hmissing with h | h
    · unfold http.Header.Values at h
      unfold http.Header.Get
      have hf : List.filter (fun p => decide (p.1 = "Authorization")) r.Header = [] := by
        simpa using h
      have hnone : List.find? (fun p => decide (p.1 = "Authorization")) r.Header = none := by
        rw [List.find?_eq_none]
        intro p hp hpk
        have : p ∈ List.filter (fun p => decide (p.1 = "Authorization")) r.Header :=
          List.mem_filter.mpr ⟨hp, hpk⟩
        rw [hf] at this
        exact absurd this (List.not_mem_nil _)
      simp [hnone]
    · exact h
  exact ⟨by simp [Auth.GetTokenFromHeaderAndVerify, hget], rfl⟩

/-- Witness for C3: a request without any header. -/
theorem C3_missing_header_witness :
    (bareRequest.Header.Values "Authorization" = [] ∨ bareRequest.Header.Get "Authorization" = "") ∧
    sampleAuth.GetTokenFromHeaderAndVerify (sampleLib 1500) emptyWriter bareRequest =
      some (emptyWriter.AddHeader "Vary" "Authorization", ⟨"", none, some .noAuthHeader⟩) ∧
    AuthError.noAuthHeader.Error = "no auth header" :=
  ⟨Or.inl (by decide),
    C3_missing_header (sampleLib 1500) sampleAuth emptyWriter bareRequest (Or.inl (by decide))⟩

/-- No error of the package has a text that starts with `token is expired by`: each text
starts with one of the four sentinel texts. -/
theorem jwt.Error.not_expired_by (e : jwt.Error) :
    strings.HasPrefix e.Error "token is expired by" = false := by
  obtain ⟨kind, detail⟩ := e
  cases kind <;> by_cases hd : detail = "" <;>
    simp [jwt.Error.Error, jwt.Sentinel.text, strings.HasPrefix, hd, String.data_append,
      List.isPrefixOf]

/-- The token check never yields the error `expired token`. -/
theorem Auth.verifyToken_ne_expiredToken (lib : jwt.Lib) (j : Auth) (token : String) :
    (j.verifyToken lib token).err ≠ some .expiredToken := by
  unfold Auth.verifyToken
  split
  · simp [jwt.Error.not_expired_by]
  · split <;> simp

/-- Claim C4, as the code behaves. For a token that decodes to an HMAC token, carries a
signature good under the policy secret and has an expiry at or before the validator's clock,
the call on `Bearer <token>` fails with the error of the package handed through unchanged:
its text starts with `token has invalid claims: token is expired`, which the test for the
prefix `token is expired by` does not match, so the error is not `expired token`. -/
theorem C4_expired_token_passed_through (lib : jwt.Lib) (j : Auth) (w : http.ResponseWriter)
    (r : http.Request) (t : String) (token : jwt.Token) (exp : time.Time)
    (hheader : r.Header.Get "Authorization" = "Bearer " ++ t)
    (hcompact : ' ' ∉ t.data)
    (hdecode : lib.decode t = .ok token)
    (hmethod : token.Method = .HMAC)
    (hsigned : lib.verify token (bytesOf j.Secret) = none)
    (hexp : token.Claims.ExpiresAt = some exp)
    (hpast : exp ≤ lib.now) :
    ∃ e : jwt.Error,
      j.GetTokenFromHeaderAndVerify lib w r =
        some (w.AddHeader "Vary" "Authorization", ⟨"", none, some (.passed e)⟩) ∧
      e.kind = .ErrTokenInvalidClaims ∧
      strings.HasPrefix e.Error "token has invalid claims: token is expired" = true ∧
      AuthError.passed e ≠ AuthError.expiredToken ∧
      (AuthError.passed e).Error ≠ AuthError.expiredToken.Error := by
  have hne : "Bearer " ++ t ≠ "" := by
    intro h
    have := congrArg String.data h
    simp [String.data_append] at this
  have hnot : ¬ lib.now < exp := not_lt.mpr hpast
  have hkey : j.keyFunc token = .ok (bytesOf j.Secret) := by
    simp [Auth.keyFunc, hmethod]
  have hval : jwt.Validate lib.now token.Claims = [jwt.ErrTokenExpired] ∨
      jwt.Validate lib.now token.Claims = [jwt.ErrTokenExpired, jwt.ErrTokenNotValidYet] := by
    unfold jwt.Validate
    rw [hexp]
    cases hnbf : token.Claims.NotBefore with
    | none => simp [hnot]
    | some nbf => by_cases hlt : lib.now < nbf <;> simp [hnot, hlt]
  have hreturn : ∀ e : jwt.Error, jwt.ParseWithClaims lib t j.keyFunc = .error e →
      j.GetTokenFromHeaderAndVerify lib w r =
        some (w.AddHeader "Vary" "Authorization", ⟨"", none, some (.passed e)⟩) := by
    intro e hparse
    simp [Auth.GetTokenFromHeaderAndVerify, hheader, hne, strings.Split_bearer t hcompact,
      Auth.verifyToken, hparse, jwt.Error.not_expired_by]
  rcases hval with hv | hv
  · refine ⟨⟨.ErrTokenInvalidClaims, "token is expired"⟩, hreturn _ ?_, rfl, by decide, by simp,
      by decide⟩
    simp [jwt.ParseWithClaims, hdecode, hkey, hsigned, hv]
    rfl
  · refine ⟨⟨.ErrTokenInvalidClaims, "token is expired, token is not valid yet"⟩, hreturn _ ?_,
      rfl, by decide, by simp, by decide⟩
    simp [jwt.ParseWithClaims, hdecode, hkey, hsigned, hv]
    rfl

/-- Witness for C4: the sample token, signed with the policy secret and expiring at instant
2000, presented when the validator's clock reads 3000. -/
theorem C4_expired_token_passed_through_witness :
    sampleAuth.GetTokenFromHeaderAndVerify (sampleLib 3000) emptyWriter
        (requestWith "Bearer abc.def.ghi") =
      some (emptyWriter.AddHeader "Vary" "Authorization",
        ⟨"", none, some (.passed ⟨.ErrTokenInvalidClaims, "token is expired"⟩)⟩) ∧
    (AuthError.passed ⟨.ErrTokenInvalidClaims, "token is expired"⟩).Error =
      "token has invalid claims: token is expired" ∧
    ∃ e : jwt.Error,
      sampleAuth.GetTokenFromHeaderAndVerify (sampleLib 3000) emptyWriter
          (requestWith "Bearer abc.def.ghi") =
        some (emptyWriter.AddHeader "Vary" "Authorization", ⟨"", none, some (.passed e)⟩) ∧
      e.kind = .ErrTokenInvalidClaims ∧
      strings.HasPrefix e.Error "token has invalid claims: token is expired" = true ∧
      AuthError.passed e ≠ AuthError.expiredToken ∧
      (AuthError.passed e).Error ≠ AuthError.expiredToken.Error :=
  ⟨by decide, by decide,
    C4_expired_token_passed_through (sampleLib 3000) sampleAuth emptyWriter
      (requestWith "Bearer abc.def.ghi") "abc.def.ghi"
      ⟨"abc.def.ghi", .HMAC, "HS256", sampleClaims⟩ 2000
      (by decide) (by decide) (by rfl) (by rfl) (by decide) (by rfl) (by decide)⟩

/-- A successful parse comes from a token of an HMAC method. -/
theorem jwt.ParseWithClaims_ok_hmac (lib : jwt.Lib) (j : Auth) (tokenString : String)
    (c : jwt.RegisteredClaims) (h : jwt.ParseWithClaims lib tokenString j.keyFunc = .ok c) :
    ∃ token, lib.decode tokenString = .ok token ∧ token.Method = .HMAC := by
  unfold jwt.ParseWithClaims at h
  cases hd : lib.decode tokenString with
  | error e => simp [hd] at h
  | ok token =>
    refine ⟨token, rfl, ?_⟩
    by_contra hm
    have hk : j.keyFunc token = .error ("unexpected signing method " ++ token.alg) := by
      unfold Auth.keyFunc
      cases hmeth : token.Method <;> simp_all
    simp [hd, hk] at h

/-- Claim C5. The key callback returns an error and no key for every token whose signing
method is not of the HMAC type, and the bytes of the policy secret for every token whose
method is; so a string that decodes to a token of another method (RSA, RSA-PSS, ECDSA,
Ed25519, `none`) is rejected by the parse and by the call, and whatever the call accepts
decodes to an HMAC token. -/
theorem C5_hmac_only (lib : jwt.Lib) (j : Auth) :
    (∀ token : jwt.Token, token.Method ≠ .HMAC →
      j.keyFunc token = .error ("unexpected signing method " ++ token.alg)) ∧
    (∀ token : jwt.Token, token.Method = .HMAC → j.keyFunc token = .ok (bytesOf j.Secret)) ∧
    (∀ (tokenString : String) (token : jwt.Token),
      lib.decode tokenString = .ok token → token.Method ≠ .HMAC →
        (∃ e, jwt.ParseWithClaims lib tokenString j.keyFunc = .error e) ∧
        (j.verifyToken lib tokenString).err ≠ none) ∧
    (∀ (w : http.ResponseWriter) (r : http.Request) (w1 : http.ResponseWriter)
        (res : VerifyResult),
      j.GetTokenFromHeaderAndVerify lib w r = some (w1, res) → res.err = none →
        ∃ token, lib.decode res.token = .ok token ∧ token.Method = .HMAC) := by
  have hkey : ∀ token : jwt.Token, token.Method ≠ .HMAC →
      j.keyFunc token = .error ("unexpected signing method " ++ token.alg) := by
    intro token hm
    unfold Auth.keyFunc
    cases hmeth : token.Method <;> simp_all
  have hverify : ∀ (tokenString : String) (res : VerifyResult),
      j.verifyToken lib tokenString = res → res.err = none →
        ∃ token, lib.decode res.token = .ok token ∧ token.Method = .HMAC := by
    intro tokenString res hres herr
    unfold Auth.verifyToken at hres
    cases hp : jwt.ParseWithClaims lib tokenString j.keyFunc with
    | error e =>
      rw [hp] at hres
      subst hres
      simp at herr
      split at herr <;> simp at herr
    | ok c =>
      rw [hp] at hres
      by_cases hi : c.Issuer = j.Issuer
      · simp [hi] at hres
        subst hres
        exact jwt.ParseWithClaims_ok_hmac lib j tokenString c hp
      · simp [hi] at hres
        subst hres
        simp at herr
  refine ⟨hkey, ?_, ?_, ?_⟩
  · intro token hm
    simp [Auth.keyFunc, hm]
  · intro tokenString token hd hm
    have hparse : jwt.ParseWithClaims lib tokenString j.keyFunc =
        .error ⟨.ErrTokenUnverifiable,
          "error while executing keyfunc: " ++ ("unexpected signing method " ++ token.alg)⟩ := by
      simp [jwt.ParseWithClaims, hd, hkey token hm]
    refine ⟨⟨_, hparse⟩, ?_⟩
    simp only [Auth.verifyToken, hparse]
    split <;> simp
  · intro w r w1 res hcall herr
    unfold Auth.GetTokenFromHeaderAndVerify at hcall
    by_cases h0 : r.Header.Get "Authorization" = ""
    · simp [h0] at hcall
      rw [← hcall.2] at herr
      simp at herr
    · by_cases h2 : (strings.Split (r.Header.Get "Authorization") ' ').length ≠ 2
      · simp [h0, h2] at hcall
        rw [← hcall.2] at herr
        simp at herr
      · have hlen : (strings.Split (r.Header.Get "Authorization") ' ').length = 2 := by
          simpa using h2
        obtain ⟨a, b, hab⟩ := List.length_eq_two.mp hlen
        by_cases hb : a = "Bearer"
        · simp [h0, hab, hb] at hcall
          exact hverify b res hcall.2 herr
        · simp [h0, hab, hb] at hcall
          rw [← hcall.2] at herr
          simp at herr

/-- An instance of C5: the sample RS256 token is refused with the callback's error. -/
theorem C5_hmac_only_witness :
    sampleAuth.GetTokenFromHeaderAndVerify (sampleLib 1500) emptyWriter
        (requestWith "Bearer rsa.def.ghi") =
      some (emptyWriter.AddHeader "Vary" "Authorization",
        ⟨"", none, some (.passed ⟨.ErrTokenUnverifiable,
          "error while executing keyfunc: unexpected signing method RS256"⟩)⟩) ∧
    (sampleAuth.verifyToken (sampleLib 1500) "rsa.def.ghi").err ≠ none :=
  ⟨by decide,
    ((C5_hmac_only (sampleLib 1500) sampleAuth).2.2.1 "rsa.def.ghi"
      ⟨"rsa.def.ghi", .RSA, "RS256", sampleClaims⟩ (by rfl) (by decide)).2⟩

/-! ## The authorization middleware -/

/-- Claim C6. For every request, wrapped handler and program state: when
`GetTokenFromHeaderAndVerify` returns no error, `authRequired` does exactly what one call of
the wrapped handler does on the same request (and on the writer that carries the added
`Vary` header); when it returns an error, whichever it is, `authRequired` passes 401 to
`WriteHeader`, writes no body, and leaves the program state as it was, for every wrapped
handler. Run with a handler that records its invocations, the record is the original
request alone in the first case and empty in the second. -/
theorem C6_authRequired_gate {σ : Type} (lib : jwt.Lib) (app : application)
    (next : Handler σ) (s : σ) (w : http.ResponseWriter) (r : http.Request) :
    ∃ res : VerifyResult,
      app.auth.GetTokenFromHeaderAndVerify lib w r =
        some (w.AddHeader "Vary" "Authorization", res) ∧
      (res.err = none →
        app.authRequired lib next s w r = next s (w.AddHeader "Vary" "Authorization") r ∧
        app.authRequired lib recordingHandler [] w r =
          some ([r], w.AddHeader "Vary" "Authorization")) ∧
      (res.err ≠ none →
        app.authRequired lib next s w r =
          some (s, (w.AddHeader "Vary" "Authorization").WriteHeader 401) ∧
        app.authRequired lib recordingHandler [] w r =
          some ([], (w.AddHeader "Vary" "Authorization").WriteHeader 401) ∧
        ((w.AddHeader "Vary" "Authorization").WriteHeader 401).statusCodes =
          w.statusCodes ++ [401] ∧
        ((w.AddHeader "Vary" "Authorization").WriteHeader 401).body = w.body) := by
  obtain ⟨res, hres⟩ := Auth.GetTokenFromHeaderAndVerify_isSome lib app.auth w r
  refine ⟨res, hres, ?_, ?_⟩
  · intro herr
    constructor
    · simp [application.authRequired, hres, herr]
    · simp [application.authRequired, hres, herr, recordingHandler]
  · intro herr
    obtain ⟨e, he⟩ := Option.ne_none_iff_exists'.mp herr
    refine ⟨?_, ?_, rfl, rfl⟩
    · simp [application.authRequired, hres, he, http.StatusUnauthorized]
    · simp [application.authRequired, hres, he, http.StatusUnauthorized]

/-- Two runs of C6 on concrete requests: without an `Authorization` header the response is
a bare 401 and the handler is not invoked; with the sample token inside its lifetime the
handler is invoked once, with the request. -/
theorem C6_authRequired_gate_witness :
    application.authRequired (sampleLib 1500) ⟨"example.com", sampleAuth⟩ recordingHandler []
        emptyWriter bareRequest =
      some ([], ⟨[("Vary", "Authorization")], [401], []⟩) ∧
    application.authRequired (sampleLib 1500) ⟨"example.com", sampleAuth⟩ recordingHandler []
        emptyWriter (requestWith "Bearer abc.def.ghi") =
      some ([requestWith "Bearer abc.def.ghi"], ⟨[("Vary", "Authorization")], [], []⟩) ∧
    ∃ res : VerifyResult,
      sampleAuth.GetTokenFromHeaderAndVerify (sampleLib 1500) emptyWriter bareRequest =
        some (emptyWriter.AddHeader "Vary" "Authorization", res) ∧ res.err ≠ none :=
  ⟨by decide, by decide,
    (C6_authRequired_gate (sampleLib 1500) ⟨"example.com", sampleAuth⟩ recordingHandler []
      emptyWriter bareRequest).imp (fun res h => ⟨h.1, by
        have h1 := h.1
        have h2 : sampleAuth.GetTokenFromHeaderAndVerify (sampleLib 1500) emptyWriter bareRequest =
            some (emptyWriter.AddHeader "Vary" "Authorization", ⟨"", none, some .noAuthHeader⟩) := by
          decide
        have h3 : res = ⟨"", none, some .noAuthHeader⟩ := by
          have := h1.symm.trans h2
          simpa using this
        simp [h3]⟩)⟩

/-! ## Token issuance -/

/-- Adding a whole number of seconds to an instant adds it to the Unix time. -/
theorem time.Unix_add_seconds (t : time.Time) (k : Int) :
    time.Time.Unix (time.Time.Add t (k * time.Second)) = time.Time.Unix t + k := by
  unfold time.Time.Unix time.Time.Add time.Second
  exact Int.add_mul_ediv_right t k (by decide)

/-- Counterexample to C7 as stated. Under the default policy (access lifetime 900 s,
refresh lifetime 86400 s) with the clock read at 0.999999999 s for `iat` and at 1 s for
`exp`, the claims hold `iat = 0` and `exp = 901` (refresh: `exp = 86401`). With a lifetime
of 1.5 s and both readings at 0.6 s they hold `iat = 0` and `exp = 2`. -/
theorem C7_counterexample :
    (sampleAuth.accessClaims ada 999999999 1000000000).get "iat" = some (.num 0) ∧
    (sampleAuth.accessClaims ada 999999999 1000000000).get "exp" = some (.num 901) ∧
    sampleAuth.TokenExpiry = 900 * time.Second ∧
    ((901 : Int) - 0) * time.Second ≠ sampleAuth.TokenExpiry ∧
    (sampleAuth.refreshTokenClaims ada 999999999 1000000000).get "iat" = some (.num 0) ∧
    (sampleAuth.refreshTokenClaims ada 999999999 1000000000).get "exp" = some (.num 86401) ∧
    sampleAuth.RefreshExpiry = 86400 * time.Second ∧
    ((86401 : Int) - 0) * time.Second ≠ sampleAuth.RefreshExpiry ∧
    (Auth.accessClaims { sampleAuth with TokenExpiry := 1500000000 } ada 600000000
      600000000).get "iat" = some (.num 0) ∧
    (Auth.accessClaims { sampleAuth with TokenExpiry := 1500000000 } ada 600000000
      600000000).get "exp" = some (.num 2) ∧
    ((2 : Int) - 0) * time.Second ≠ 1500000000 := by
  decide

/-- Claim C7, amended. The access claims hold `iat = Unix(now1)` and
`exp = Unix(now2 + TokenExpiry)` for the two readings of the clock, in this order. Whenever
`TokenExpiry` is a whole number `k` of seconds (whatever `RefreshExpiry` is), `exp - iat` is
`k` plus the difference of the Unix times of the two readings, hence exactly `k` when both
readings fall in the same second. Independently, the refresh claims satisfy the same with
`RefreshExpiry` (whatever `TokenExpiry` is) and their own two readings. -/
theorem C7_expiry_minus_issued (j : Auth) (user : jwtUser)
    (now1 now2 now3 now4 : time.Time) :
    ∃ iat exp riat rexp : Int,
      (j.accessClaims user now1 now2).get "iat" = some (.num iat) ∧
      (j.accessClaims user now1 now2).get "exp" = some (.num exp) ∧
      iat = time.Time.Unix now1 ∧
      exp = time.Time.Unix (time.Time.Add now2 j.TokenExpiry) ∧
      (∀ k : Int, j.TokenExpiry = k * time.Second →
        exp - iat = k + (time.Time.Unix now2 - time.Time.Unix now1) ∧
        (time.Time.Unix now1 = time.Time.Unix now2 → exp - iat = k)) ∧
      (j.refreshTokenClaims user now3 now4).get "iat" = some (.num riat) ∧
      (j.refreshTokenClaims user now3 now4).get "exp" = some (.num rexp) ∧
      riat = time.Time.Unix now3 ∧
      rexp = time.Time.Unix (time.Time.Add now4 j.RefreshExpiry) ∧
      (∀ m : Int, j.RefreshExpiry = m * time.Second →
        rexp - riat = m + (time.Time.Unix now4 - time.Time.Unix now3) ∧
        (time.Time.Unix now3 = time.Time.Unix now4 → rexp - riat = m)) := by
  refine ⟨time.Time.Unix now1, time.Time.Unix (time.Time.Add now2 j.TokenExpiry),
    time.Time.Unix now3, time.Time.Unix (time.Time.Add now4 j.RefreshExpiry),
    rfl, rfl, rfl, rfl, ?_, rfl, rfl, rfl, rfl, ?_⟩
  · intro k hk
    constructor
    · rw [hk, time.Unix_add_seconds]; ring
    · intro h; rw [hk, time.Unix_add_seconds, h]; ring
  · intro m hm
    constructor
    · rw [hm, time.Unix_add_seconds]; ring
    · intro h; rw [hm, time.Unix_add_seconds, h]; ring

/-- Witness for C7. Under the default policy, with all four readings within the second
1700000000, `exp - iat` is 900 for the access claims and 86400 for the refresh claims.
Under a policy whose access lifetime is 900 s and whose refresh lifetime is 1.5 s, the
access claims still have `exp - iat = 900`. -/
theorem C7_expiry_minus_issued_witness :
    (sampleAuth.accessClaims ada 1700000000000000001 1700000000000000002).get "iat" =
      some (.num 1700000000) ∧
    (sampleAuth.accessClaims ada 1700000000000000001 1700000000000000002).get "exp" =
      some (.num 1700000900) ∧
    time.Time.Unix (time.Time.Add 1700000000000000002 sampleAuth.TokenExpiry) -
      time.Time.Unix 1700000000000000001 = 900 ∧
    time.Time.Unix (time.Time.Add 1700000000000000004 sampleAuth.RefreshExpiry) -
      time.Time.Unix 1700000000000000003 = 86400 ∧
    time.Time.Unix (time.Time.Add 1700000000000000002
        (Auth.TokenExpiry { sampleAuth with RefreshExpiry := 1500000000 })) -
      time.Time.Unix 1700000000000000001 = 900 := by
  refine ⟨by decide, by decide, ?_, ?_, ?_⟩
  · obtain ⟨iat, exp, riat, rexp, -, -, hiat, hexp, hk, -⟩ :=
      C7_expiry_minus_issued sampleAuth ada 1700000000000000001 1700000000000000002
        1700000000000000003 1700000000000000004
    rw [← hiat, ← hexp]
    exact (hk 900 (by decide)).2 (by decide)
  · obtain ⟨iat, exp, riat, rexp, -, -, -, -, -, -, -, hriat, hrexp, hm⟩ :=
      C7_expiry_minus_issued sampleAuth ada 1700000000000000001 1700000000000000002
        1700000000000000003 1700000000000000004
    rw [← hriat, ← hrexp]
    exact (hm 86400 (by decide)).2 (by decide)
  · obtain ⟨iat, exp, riat, rexp, -, -, hiat, hexp, hk, -⟩ :=
      C7_expiry_minus_issued { sampleAuth with RefreshExpiry := 1500000000 } ada
        1700000000000000001 1700000000000000002 1700000000000000003 1700000000000000004
    rw [← hiat, ← hexp]
    exact (hk 900 (by decide)).2 (by decide)

/-- The character of a decimal digit stands for that digit. -/
theorem fmt.digitChar_value (m : Nat) (h : m < 10) :
    (Nat.digitChar m).toNat - '0'.toNat = m := by
  interval_cases m <;> decide

theorem fmt.toDigitsCore_value : ∀ (fuel n : Nat) (ds : List Char), n < fuel →
    (Nat.toDigitsCore 10 fuel n ds).foldl (fun acc c => acc * 10 + (c.toNat - '0'.toNat)) 0 =
      ds.foldl (fun acc c => acc * 10 + (c.toNat - '0'.toNat)) n := by
  intro fuel
  induction fuel with
  | zero => intro n ds h; omega
  | succ fuel ih =>
    intro n ds h
    unfold Nat.toDigitsCore
    have hd := fmt.digitChar_value (n % 10) (Nat.mod_lt _ (by decide))
    by_cases h0 : n / 10 = 0
    · simp only [h0, if_true, List.foldl_cons, Nat.zero_mul, Nat.zero_add, hd]
      congr 1
      omega
    · simp only [h0, if_false]
      rw [ih (n / 10) _ (by omega)]
      simp only [List.foldl_cons, hd]
      congr 1
      omega

/-- What `Sprint` writes for a nonnegative integer reads back as that integer. -/
theorem fmt.decimalValue_Sprint (n : Nat) : fmt.decimalValue (fmt.Sprint (n : Int)) = n := by
  show fmt.decimalValue (Nat.repr n) = n
  unfold fmt.decimalValue Nat.repr Nat.toDigits
  simp only [List.asString]
  rw [fmt.toDigitsCore_value _ _ _ (Nat.lt_succ_self n)]
  rfl

/-- What `Sprint` writes for a negative integer is a minus sign before its magnitude. -/
theorem fmt.Sprint_neg (n : Nat) :
    fmt.Sprint (-((n + 1 : Nat) : Int)) = "-" ++ fmt.Sprint ((n + 1 : Nat) : Int) := by
  rfl

/-- Claim C8. For every identity, the access claims hold under `sub` the string
`fmt.Sprint(id)` (a string value, not a number) and under `name` the first name, a space and
the last name; the refresh claims hold the same string under `sub`, and their keys are
exactly `sub`, `iat`, `exp`: no `name`, `iss`, `aud` or `typ`. The string under `sub` is
the decimal numeral of the id: for a nonnegative id its digits read back as the id, for a
negative id it is a minus sign before the numeral of the magnitude. These two claim sets are
what `GenerateTokenPair` signs. For the identity 42, Ada, Lovelace: `sub` is `42` in both
and `name` is `Ada Lovelace`. -/
theorem C8_claim_contents (lib : jwt.Lib) (j : Auth) (user : jwtUser)
    (now1 now2 now3 now4 : time.Time) :
    (j.accessClaims user now1 now2).get "sub" = some (.str (fmt.Sprint user.ID)) ∧
    (j.accessClaims user now1 now2).get "sub" ≠ some (.num user.ID) ∧
    (j.accessClaims user now1 now2).get "name" =
      some (.str (user.FirstName ++ " " ++ user.LastName)) ∧
    (j.refreshTokenClaims user now3 now4).get "sub" = some (.str (fmt.Sprint user.ID)) ∧
    (j.refreshTokenClaims user now3 now4).keys = ["sub", "iat", "exp"] ∧
    (∀ key ∈ ["name", "iss", "aud", "typ"], (j.refreshTokenClaims user now3 now4).get key = none) ∧
    (∀ n : Nat, user.ID = (n : Int) → fmt.decimalValue (fmt.Sprint user.ID) = n) ∧
    (∀ n : Nat, user.ID = -((n + 1 : Nat) : Int) →
      fmt.Sprint user.ID = "-" ++ fmt.Sprint ((n + 1 : Nat) : Int)) ∧
    (∀ a b : String,
      lib.sign (j.accessClaims user now1 now2) (bytesOf j.Secret) = .ok a →
      lib.sign (j.refreshTokenClaims user now3 now4) (bytesOf j.Secret) = .ok b →
      j.GenerateTokenPair lib user now1 now2 now3 now4 = .ok ⟨a, b⟩) ∧
    (j.accessClaims ada now1 now2).get "sub" = some (.str "42") ∧
    (j.refreshTokenClaims ada now3 now4).get "sub" = some (.str "42") ∧
    (j.accessClaims ada now1 now2).get "name" = some (.str "Ada Lovelace") ∧
    (j.refreshTokenClaims ada now3 now4).get "name" = none := by
  refine ⟨rfl, ?_, rfl, rfl, rfl, ?_, ?_, ?_, ?_, rfl, rfl, rfl, rfl⟩
  · have h : (j.accessClaims user now1 now2).get "sub" = some (.str (fmt.Sprint user.ID)) := rfl
    rw [h]
    simp
  · intro key hkey
    simp only [List.mem_cons, List.mem_singleton, List.not_mem_nil, or_false] at hkey
    rcases hkey with h | h | h | h <;> subst h <;> rfl
  · intro n hn
    rw [hn]
    exact fmt.decimalValue_Sprint n
  · intro n hn
    rw [hn]
    exact fmt.Sprint_neg n
  · intro a b ha hb
    simp [Auth.GenerateTokenPair, ha, hb]

/-- An instance of C8: the identity 42, Ada, Lovelace under the default policy. -/
theorem C8_claim_contents_witness :
    (sampleAuth.accessClaims ada 0 0).get "sub" = some (.str (fmt.Sprint ada.ID)) ∧
    fmt.decimalValue (fmt.Sprint ada.ID) = 42 ∧
    (sampleAuth.accessClaims ada 0 0).get "name" = some (.str "Ada Lovelace") ∧
    (sampleAuth.refreshTokenClaims ada 0 0).keys = ["sub", "iat", "exp"] :=
  ⟨(C8_claim_contents (sampleLib 0) sampleAuth ada 0 0 0 0).1,
    (C8_claim_contents (sampleLib 0) sampleAuth ada 0 0 0 0).2.2.2.2.2.2.1 42 (by decide),
    by decide, by decide⟩

/-! ## Cookies -/

/-- Claim C9. For every policy the expired cookie has the policy's name and path, an empty
value, `MaxAge = -1` and `Expires` equal to the Unix epoch (so not after it); it is the same
cookie whatever `TokenExpiry` and `RefreshExpiry` are. -/
theorem C9_expired_cookie (j : Auth) :
    j.GetExpiredRefreshCookie.Name = j.CookieName ∧
    j.GetExpiredRefreshCookie.Path = j.CookiePath ∧
    j.GetExpiredRefreshCookie.Value = "" ∧
    j.GetExpiredRefreshCookie.MaxAge = -1 ∧
    j.GetExpiredRefreshCookie.Expires = time.Unix 0 0 ∧
    time.Time.Unix j.GetExpiredRefreshCookie.Expires = 0 ∧
    j.GetExpiredRefreshCookie.Expires ≤ time.Unix 0 0 ∧
    (∀ d1 d2 : time.Duration,
      Auth.GetExpiredRefreshCookie { j with TokenExpiry := d1, RefreshExpiry := d2 } =
        j.GetExpiredRefreshCookie) := by
  refine ⟨rfl, rfl, rfl, rfl, rfl, ?_, ?_, fun _ _ => rfl⟩
  · simp [Auth.GetExpiredRefreshCookie, time.Unix, time.Time.Unix]
  · exact le_refl _

/-! ### `float64` values of whole numbers -/

namespace float64

theorem log2Fuel_spec : ∀ fuel n : Nat, n ≤ fuel → n ≠ 0 →
    2 ^ log2Fuel fuel n ≤ n ∧ n < 2 ^ (log2Fuel fuel n + 1) := by
  intro fuel
  induction fuel with
  | zero => intro n h0 hn; omega
  | succ fuel ih =>
    intro n hle hn
    unfold log2Fuel
    by_cases h2 : 2 ≤ n
    · simp only [h2, if_true]
      obtain ⟨hlo, hhi⟩ := ih (n / 2) (by omega) (by omega)
      rw [pow_succ, pow_succ]
      rw [pow_succ] at hhi
      constructor <;> omega
    · simp only [h2, if_false]
      have : n = 1 := by omega
      subst this
      decide

/-- The leading-bit position is the base-2 logarithm rounded down. -/
theorem log2_eq_log (n : Nat) : log2 n = Nat.log 2 n := by
  by_cases hn : n = 0
  · subst hn
    simp [log2, log2Fuel]
  · obtain ⟨hlo, hhi⟩ := log2Fuel_spec n n (le_refl n) hn
    exact ((Nat.log_eq_iff (Or.inr ⟨by decide, hn⟩)).mpr ⟨hlo, hhi⟩).symm

theorem log_mul_pow (n j : Nat) (hn : n ≠ 0) : Nat.log 2 (n * 2 ^ j) = Nat.log 2 n + j := by
  induction j with
  | zero => simp
  | succ j ih =>
    rw [pow_succ, ← mul_assoc, Nat.log_mul_base (by decide) (by positivity), ih]
    rfl

/-- A whole number below `2 ^ 53`, given as the fraction `n * 2 ^ j / 2 ^ j`, is its own
`float64`: rounding returns the same value, over the denominator `2 ^ (52 - log2 n)`. -/
theorem round_whole (n j : Nat) (hn : n ≠ 0) (h53 : n < 2 ^ 53) :
    round ⟨n * 2 ^ j, 2 ^ j⟩ = ⟨n * 2 ^ (52 - Nat.log 2 n), 2 ^ (52 - Nat.log 2 n)⟩ := by
  have hlog : Nat.log 2 n < 53 := Nat.log_lt_of_lt_pow hn h53
  have hpow : 2 ^ Nat.log 2 n ≤ n := Nat.pow_log_le_self 2 hn
  have hnum : n * 2 ^ j ≠ 0 := by positivity
  have hexp : Frac.exponent ⟨n * 2 ^ j, 2 ^ j⟩ = (Nat.log 2 n : Int) := by
    unfold Frac.exponent
    simp only [log2_eq_log, log_mul_pow n j hn, Nat.log_pow (by decide : 1 < 2)]
    have he0 : ((Nat.log 2 n + j : Nat) : Int) - (j : Int) = (Nat.log 2 n : Int) := by
      push_cast; ring
    simp only [he0]
    have hnn : (0 : Int) ≤ (Nat.log 2 n : Int) := Int.natCast_nonneg _
    simp only [hnn, if_true, Int.toNat_ofNat]
    have : 2 ^ Nat.log 2 n * 2 ^ j ≤ n * 2 ^ j := Nat.mul_le_mul_right _ hpow
    simp [this]
  unfold round
  simp only [hnum, if_false, hexp]
  obtain ⟨i, hi⟩ : ∃ i : Nat, Nat.log 2 n + i = 52 := ⟨52 - Nat.log 2 n, by omega⟩
  have hsub : 52 - Nat.log 2 n = i := by omega
  have hk : (Nat.log 2 n : Int) - 52 = -(i : Int) := by omega
  rw [hk, hsub]
  have hpos : 0 < 2 ^ j := by positivity
  cases i with
  | zero =>
    simp [Frac.scale, Frac.roundHalfEven, Nat.mul_mod_left, Nat.mul_div_cancel _ hpos]
  | succ i =>
    have hneg : ¬ (0 : Int) ≤ -((i + 1 : Nat) : Int) := by omega
    have hnn : (0 : Int) ≤ ((i + 1 : Nat) : Int) := by omega
    simp only [Frac.scale, hneg, if_false, neg_neg, hnn, if_true, Int.toNat_ofNat,
      Frac.roundHalfEven]
    have hmod : n * 2 ^ j * 2 ^ (i + 1) % 2 ^ j = 0 := by
      rw [Nat.mul_right_comm]; exact Nat.mul_mod_left _ _
    have hdiv : n * 2 ^ j * 2 ^ (i + 1) / 2 ^ j = n * 2 ^ (i + 1) := by
      rw [Nat.mul_right_comm]; exact Nat.mul_div_cancel _ hpos
    simp [hmod, hdiv, hpos]

end float64

theorem time.SecondsAbs_whole (n : Nat) (h53 : n < 2 ^ 53) (d : time.Duration)
    (hd : d.natAbs = n * 1000000000) : (time.Duration.SecondsAbs d).trunc = n := by
  unfold time.Duration.SecondsAbs
  have hsec : d.natAbs / 1000000000 = n := by rw [hd]; exact Nat.mul_div_cancel _ (by decide)
  have hnsec : d.natAbs % 1000000000 = 0 := by rw [hd]; exact Nat.mul_mod_left _ _
  simp only [hsec, hnsec]
  have hzero : float64.ofNat 0 = ⟨0, 1⟩ := by decide
  have hdiv : ∀ b, float64.div ⟨0, 1⟩ b = ⟨0, 1⟩ := by
    intro b
    simp [float64.div, float64.round]
  rw [hzero, hdiv]
  by_cases hn : n = 0
  · subst hn
    decide
  · have hof : float64.ofNat n = ⟨n * 2 ^ (52 - Nat.log 2 n), 2 ^ (52 - Nat.log 2 n)⟩ := by
      have := float64.round_whole n 0 hn h53
      simpa [float64.ofNat] using this
    rw [hof]
    simp only [float64.add, Nat.mul_one, Nat.zero_mul, Nat.add_zero]
    rw [float64.round_whole n _ hn h53]
    simp only [float64.Frac.trunc]
    exact Nat.mul_div_cancel _ (by positivity)

/-- Go `int(d.Seconds())` of an `int64` duration of `s` whole seconds is `s`. -/
theorem time.SecondsInt_whole (d s : Int) (hlo : -9223372036854775808 ≤ d)
    (hhi : d < 9223372036854775808) (hs : d = s * 1000000000) :
    time.Duration.SecondsInt d = s := by
  have habs : d.natAbs = s.natAbs * 1000000000 := by
    rw [hs, Int.natAbs_mul]
    rfl
  have h53 : s.natAbs < 2 ^ 53 := by
    have : s.natAbs < 9007199254740992 := by omega
    simpa using this
  have htrunc := time.SecondsAbs_whole s.natAbs h53 d habs
  unfold time.Duration.SecondsInt
  rw [htrunc]
  by_cases hneg : d < 0
  · simp only [hneg, if_true]
    omega
  · simp only [hneg, if_false]
    omega

/-! ### Bounds on `float64` rounding -/

namespace float64

/-- Rounding to the nearest integer does not pass an integer above the fraction. -/
theorem roundHalfEven_le (n d M : Nat) (hd : d ≠ 0) (h : n ≤ M * d) :
    Frac.roundHalfEven ⟨n, d⟩ ≤ M := by
  have hdm := Nat.div_add_mod n d
  have hfloor : n / d ≤ M := Nat.div_le_of_le_mul (by rw [Nat.mul_comm]; exact h)
  have hstrict : 0 < n % d → n / d + 1 ≤ M := by
    intro hr
    have h1 : d * (n / d) < d * M := by
      have : d * M = M * d := Nat.mul_comm _ _
      omega
    exact Nat.lt_of_mul_lt_mul_left h1
  have hmod2 : n / d % 2 ≤ 1 := by omega
  simp only [Frac.roundHalfEven]
  split
  · exact hfloor
  · split
    · exact hstrict (by omega)
    · have := hstrict (by omega)
      omega

/-- Rounding to the nearest integer does not pass an integer below the fraction. -/
theorem le_roundHalfEven (n d M : Nat) (hd : d ≠ 0) (h : M * d ≤ n) :
    M ≤ Frac.roundHalfEven ⟨n, d⟩ := by
  have hfloor : M ≤ n / d := (Nat.le_div_iff_mul_le (Nat.pos_of_ne_zero hd)).mpr h
  simp only [Frac.roundHalfEven]
  split
  · exact hfloor
  · split <;> omega

/-- A positive fraction below `2 ^ c` has its leading bit below position `c`. -/
theorem exponent_lt (q : Frac) (c : Nat) (hn : q.num ≠ 0) (hd : q.den ≠ 0)
    (h : q.num < 2 ^ c * q.den) : q.exponent < (c : Int) := by
  obtain ⟨hnlo, hnhi⟩ := log2Fuel_spec q.num q.num (le_refl _) hn
  obtain ⟨hdlo, hdhi⟩ := log2Fuel_spec q.den q.den (le_refl _) hd
  have hlog : log2 q.num < c + (log2 q.den + 1) := by
    by_contra hcon
    have hge : c + (log2 q.den + 1) ≤ log2 q.num := by omega
    have h1 : 2 ^ (c + (log2 q.den + 1)) ≤ 2 ^ log2 q.num :=
      Nat.pow_le_pow_right (by decide) hge
    have h2 : 2 ^ c * q.den < 2 ^ c * 2 ^ (log2 q.den + 1) :=
      Nat.mul_lt_mul_of_pos_left hdhi (by positivity)
    rw [← pow_add] at h2
    have : 2 ^ log2 q.num ≤ q.num := hnlo
    omega
  unfold Frac.exponent
  simp only
  by_cases h0 : (0 : Int) ≤ (log2 q.num : Int) - (log2 q.den : Int)
  · simp only [h0, if_true]
    by_cases hr : 2 ^ ((log2 q.num : Int) - (log2 q.den : Int)).toNat * q.den ≤ q.num
    · simp only [hr, decide_True, if_true]
      by_contra hcon
      have hge : c ≤ ((log2 q.num : Int) - (log2 q.den : Int)).toNat := by omega
      have h1 : 2 ^ c ≤ 2 ^ ((log2 q.num : Int) - (log2 q.den : Int)).toNat :=
        Nat.pow_le_pow_right (by decide) hge
      have h2 : 2 ^ c * q.den ≤ 2 ^ ((log2 q.num : Int) - (log2 q.den : Int)).toNat * q.den :=
        Nat.mul_le_mul_right _ h1
      omega
    · simp only [hr, decide_False]
      simp only [Bool.false_eq_true, if_false]
      omega
  · simp only [h0, if_false]
    split <;> omega

end float64

namespace float64

/-- The rounding of a positive fraction whose leading bit lies at position `52 - j`: the
fraction times `2 ^ j`, rounded to an integer, over `2 ^ j`. -/
theorem round_eq (q : Frac) (hn : q.num ≠ 0) (j : Nat) (hk : q.exponent - 52 = -(j : Int)) :
    round q = ⟨Frac.roundHalfEven ⟨q.num * 2 ^ j, q.den⟩, 2 ^ j⟩ := by
  unfold round
  simp only [hn, if_false, hk, neg_neg]
  cases j with
  | zero => simp [Frac.scale]
  | succ i =>
    have hneg : ¬ (0 : Int) ≤ -((i + 1 : Nat) : Int) := by omega
    have hnn : (0 : Int) ≤ ((i + 1 : Nat) : Int) := by omega
    simp only [Frac.scale, hneg, if_false, neg_neg, hnn, if_true, Int.toNat_ofNat, Nat.one_mul]

/-- Rounding keeps a fraction on its side of every value it cannot represent more finely:
for a fraction below `2 ^ c` with `c ≤ 53`, the rounded value stays at or above every whole
number at or below the fraction, and at or below every bound `N / 2 ^ p` with `p + c ≤ 53`
at or above it. -/
theorem round_bounds (q : Frac) (hd : q.den ≠ 0) (c : Nat) (hc : c ≤ 53)
    (hlt : q.num < 2 ^ c * q.den) :
    (round q).den ≠ 0 ∧
    (∀ N : Nat, N * q.den ≤ q.num → N * (round q).den ≤ (round q).num) ∧
    (∀ N p : Nat, p + c ≤ 53 → q.num * 2 ^ p ≤ N * q.den →
      (round q).num * 2 ^ p ≤ N * (round q).den) := by
  by_cases hn : q.num = 0
  · have hr : round q = ⟨0, 1⟩ := by simp [round, hn]
    rw [hr]
    refine ⟨by decide, ?_, ?_⟩
    · intro N hN
      rw [hn] at hN
      have : N = 0 := by
        rcases Nat.eq_zero_or_pos N with h | h
        · exact h
        · have := Nat.mul_pos h (Nat.pos_of_ne_zero hd)
          omega
      simp [this]
    · intro N p _ _
      simp
  · have hexp := exponent_lt q c hn hd hlt
    obtain ⟨j, hj⟩ : ∃ j : Nat, q.exponent - 52 = -(j : Int) :=
      ⟨(52 - q.exponent).toNat, by omega⟩
    have hjc : 53 ≤ j + c := by omega
    rw [round_eq q hn j hj]
    refine ⟨by positivity, ?_, ?_⟩
    · intro N hN
      apply le_roundHalfEven _ _ _ hd
      calc N * 2 ^ j * q.den = N * q.den * 2 ^ j := by ring
        _ ≤ q.num * 2 ^ j := Nat.mul_le_mul_right _ hN
    · intro N p hp hN
      obtain ⟨i, hi⟩ : ∃ i : Nat, j = p + i := ⟨j - p, by omega⟩
      have hround : Frac.roundHalfEven ⟨q.num * 2 ^ j, q.den⟩ ≤ N * 2 ^ i := by
        apply roundHalfEven_le _ _ _ hd
        calc q.num * 2 ^ j = q.num * 2 ^ p * 2 ^ i := by rw [hi, pow_add]; ring
          _ ≤ N * q.den * 2 ^ i := Nat.mul_le_mul_right _ hN
          _ = N * 2 ^ i * q.den := by ring
      calc Frac.roundHalfEven ⟨q.num * 2 ^ j, q.den⟩ * 2 ^ p ≤ N * 2 ^ i * 2 ^ p :=
            Nat.mul_le_mul_right _ hround
        _ = N * 2 ^ j := by rw [hi, pow_add]; ring

/-- Conversion of a whole number below `2 ^ 53` is exact. -/
theorem ofNat_exact (n : Nat) (h53 : n < 2 ^ 53) :
    (ofNat n).den ≠ 0 ∧ (ofNat n).num = n * (ofNat n).den := by
  by_cases hn : n = 0
  · subst hn
    decide
  · have hof : ofNat n = ⟨n * 2 ^ (52 - Nat.log 2 n), 2 ^ (52 - Nat.log 2 n)⟩ := by
      have := round_whole n 0 hn h53
      simpa [ofNat] using this
    rw [hof]
    exact ⟨by positivity, rfl⟩

end float64

namespace float64

/-- The `float64` value of `sec + nsec / 1e9`, computed as `Duration.Seconds` does, lies
between `sec` and `sec + 1`; when `sec + 1 ≤ 2 ^ 23` it lies at or below
`sec + 1 - 2 ^ (-30)`, hence below `sec + 1`. -/
theorem seconds_bounds (sec nsec : Nat) (hsec : sec + 1 < 2 ^ 53) (hnsec : nsec < 1000000000) :
    (add (ofNat sec) (div (ofNat nsec) (ofNat 1000000000))).den ≠ 0 ∧
    sec * (add (ofNat sec) (div (ofNat nsec) (ofNat 1000000000))).den ≤
      (add (ofNat sec) (div (ofNat nsec) (ofNat 1000000000))).num ∧
    (add (ofNat sec) (div (ofNat nsec) (ofNat 1000000000))).num ≤
      (sec + 1) * (add (ofNat sec) (div (ofNat nsec) (ofNat 1000000000))).den ∧
    (sec + 1 ≤ 2 ^ 23 →
      (add (ofNat sec) (div (ofNat nsec) (ofNat 1000000000))).num * 2 ^ 30 ≤
        (sec * 2 ^ 30 + (2 ^ 30 - 1)) *
          (add (ofNat sec) (div (ofNat nsec) (ofNat 1000000000))).den) := by
  obtain ⟨hxd, hxn⟩ := ofNat_exact sec (by omega)
  obtain ⟨hgd, hgn⟩ := ofNat_exact nsec (by
    have : (1000000000 : Nat) < 2 ^ 53 := by decide
    omega)
  obtain ⟨hcd, hcn⟩ := ofNat_exact 1000000000 (by decide)
  generalize ofNat sec = x at hxd hxn ⊢
  generalize ofNat nsec = g at hgd hgn ⊢
  generalize ofNat 1000000000 = c at hcd hcn ⊢
  obtain ⟨X, xn⟩ := x
  obtain ⟨G, gn⟩ := g
  obtain ⟨C, cn⟩ := c
  simp only at hxd hxn hgd hgn hcd hcn
  -- the quotient
  have hXpos : 0 < xn := Nat.pos_of_ne_zero hxd
  have hGpos : 0 < gn := Nat.pos_of_ne_zero hgd
  have hCpos : 0 < cn := Nat.pos_of_ne_zero hcd
  have hGC : 0 < gn * cn := Nat.mul_pos hGpos hCpos
  have hqd : gn * C ≠ 0 := by
    rw [hcn]
    positivity
  have hqlt : G * cn < 2 ^ 0 * (gn * C) := by
    rw [hgn, hcn]
    have : nsec * gn * cn < 1 * (gn * (1000000000 * cn)) := by nlinarith
    simpa using this
  obtain ⟨hfd, -, hfup⟩ := round_bounds ⟨G * cn, gn * C⟩ hqd 0 (by decide) hqlt
  have hf1 := hfup 1 0 (by decide) (by
    have := Nat.le_of_lt hqlt
    simpa using this)
  have hf30 := hfup (2 ^ 30 - 1) 30 (by decide) (by
    show G * cn * 2 ^ 30 ≤ (2 ^ 30 - 1) * (gn * C)
    rw [hgn, hcn]
    have h1 : nsec * 2 ^ 30 ≤ (2 ^ 30 - 1) * 1000000000 := by
      have : (2 : Nat) ^ 30 = 1073741824 := by decide
      omega
    calc nsec * gn * cn * 2 ^ 30 = nsec * 2 ^ 30 * (gn * cn) := by ring
      _ ≤ (2 ^ 30 - 1) * 1000000000 * (gn * cn) := Nat.mul_le_mul_right _ h1
      _ = (2 ^ 30 - 1) * (gn * (1000000000 * cn)) := by ring)
  have hdivdef : div ⟨G, gn⟩ ⟨C, cn⟩ = round ⟨G * cn, gn * C⟩ := rfl
  rw [hdivdef]
  generalize round ⟨G * cn, gn * C⟩ = f at hfd hf1 hf30 ⊢
  obtain ⟨F, fn⟩ := f
  simp only at hfd hf1 hf30
  simp only [Nat.mul_one, Nat.one_mul, pow_zero] at hf1
  have hFpos : 0 < fn := Nat.pos_of_ne_zero hfd
  -- the sum
  have hadddef : add ⟨X, xn⟩ ⟨F, fn⟩ = round ⟨X * fn + F * xn, xn * fn⟩ := rfl
  rw [hadddef]
  have hsd : xn * fn ≠ 0 := by positivity
  have hslo : sec * (xn * fn) ≤ X * fn + F * xn := by
    rw [hxn]
    nlinarith
  have hsup : X * fn + F * xn ≤ (sec + 1) * (xn * fn) := by
    rw [hxn]
    nlinarith
  have hs53 : X * fn + F * xn < 2 ^ 53 * (xn * fn) := by
    have hpos : 0 < xn * fn := Nat.mul_pos hXpos hFpos
    calc X * fn + F * xn ≤ (sec + 1) * (xn * fn) := hsup
      _ < 2 ^ 53 * (xn * fn) := Nat.mul_lt_mul_of_pos_right hsec hpos
  obtain ⟨hrd, hrlo, hrup⟩ := round_bounds ⟨X * fn + F * xn, xn * fn⟩ hsd 53 (by decide) hs53
  refine ⟨hrd, hrlo sec hslo, ?_, ?_⟩
  · have := hrup (sec + 1) 0 (by decide) (by simpa using hsup)
    simpa using this
  · intro h23
    have hs30 : (X * fn + F * xn) * 2 ^ 30 ≤ (sec * 2 ^ 30 + (2 ^ 30 - 1)) * (xn * fn) := by
      rw [hxn]
      calc (sec * xn * fn + F * xn) * 2 ^ 30
          = sec * 2 ^ 30 * (xn * fn) + F * 2 ^ 30 * xn := by ring
        _ ≤ sec * 2 ^ 30 * (xn * fn) + (2 ^ 30 - 1) * fn * xn :=
            Nat.add_le_add_left (Nat.mul_le_mul_right _ hf30) _
        _ = (sec * 2 ^ 30 + (2 ^ 30 - 1)) * (xn * fn) := by ring
    have hs23 : X * fn + F * xn < 2 ^ 23 * (xn * fn) := by
      have hpos : 0 < xn * fn := Nat.mul_pos hXpos hFpos
      have hN : sec * 2 ^ 30 + (2 ^ 30 - 1) < 2 ^ 23 * 2 ^ 30 := by
        have h1 : (2 : Nat) ^ 30 = 1073741824 := by decide
        have h2 : (2 : Nat) ^ 23 = 8388608 := by decide
        rw [h1, h2] at *
        omega
      have h3 : (X * fn + F * xn) * 2 ^ 30 < 2 ^ 23 * (xn * fn) * 2 ^ 30 := by
        calc (X * fn + F * xn) * 2 ^ 30 ≤ (sec * 2 ^ 30 + (2 ^ 30 - 1)) * (xn * fn) := hs30
          _ < 2 ^ 23 * 2 ^ 30 * (xn * fn) := Nat.mul_lt_mul_of_pos_right hN hpos
          _ = 2 ^ 23 * (xn * fn) * 2 ^ 30 := by ring
      exact Nat.lt_of_mul_lt_mul_right h3
    obtain ⟨-, -, hrup23⟩ :=
      round_bounds ⟨X * fn + F * xn, xn * fn⟩ hsd 23 (by decide) hs23
    exact hrup23 (sec * 2 ^ 30 + (2 ^ 30 - 1)) 30 (by decide) hs30

end float64

/-- Truncated division by `10 ^ 9`, through the magnitude of the dividend. -/
theorem time.tdiv_second (d : Int) :
    (0 ≤ d → d.tdiv 1000000000 = ((d.natAbs / 1000000000 : Nat) : Int)) ∧
    (d < 0 → d.tdiv 1000000000 = -((d.natAbs / 1000000000 : Nat) : Int)) := by
  constructor
  · intro h
    rw [Int.tdiv_eq_ediv h (by decide)]
    omega
  · intro h
    have h1 : d = -(-d) := by omega
    rw [h1, Int.neg_tdiv, Int.tdiv_eq_ediv (by omega) (by decide)]
    omega

/-- The whole seconds of `d.Seconds()` against the whole seconds of `d`: never less, at
most one more, and equal for magnitudes below `2 ^ 23` seconds. -/
theorem time.SecondsAbs_trunc (d : Int) (h63 : d.natAbs ≤ 9223372036854775808) :
    d.natAbs / 1000000000 ≤ (time.Duration.SecondsAbs d).trunc ∧
    (time.Duration.SecondsAbs d).trunc ≤ d.natAbs / 1000000000 + 1 ∧
    (d.natAbs < 8388608 * 1000000000 →
      (time.Duration.SecondsAbs d).trunc = d.natAbs / 1000000000) := by
  have hsec : d.natAbs / 1000000000 + 1 < 2 ^ 53 := by
    have : (2 : Nat) ^ 53 = 9007199254740992 := by decide
    omega
  have hnsec : d.natAbs % 1000000000 < 1000000000 := Nat.mod_lt _ (by decide)
  have h23 : d.natAbs < 8388608 * 1000000000 → d.natAbs / 1000000000 + 1 ≤ 2 ^ 23 := by
    intro h
    have : (2 : Nat) ^ 23 = 8388608 := by decide
    omega
  obtain ⟨hden, hlo, hup, hfine⟩ :=
    float64.seconds_bounds (d.natAbs / 1000000000) (d.natAbs % 1000000000) hsec hnsec
  have hdef : time.Duration.SecondsAbs d =
      float64.add (float64.ofNat (d.natAbs / 1000000000))
        (float64.div (float64.ofNat (d.natAbs % 1000000000)) (float64.ofNat 1000000000)) :=
    rfl
  rw [hdef]
  generalize float64.add (float64.ofNat (d.natAbs / 1000000000))
    (float64.div (float64.ofNat (d.natAbs % 1000000000)) (float64.ofNat 1000000000)) = r
    at hden hlo hup hfine ⊢
  generalize d.natAbs / 1000000000 = sec at hlo hup hfine h23 ⊢
  have hpos : 0 < r.den := Nat.pos_of_ne_zero hden
  have h1 : sec ≤ r.trunc := (Nat.le_div_iff_mul_le hpos).mpr hlo
  have h2 : r.trunc ≤ sec + 1 :=
    Nat.div_le_of_le_mul (by rw [Nat.mul_comm]; exact hup)
  refine ⟨h1, h2, ?_⟩
  intro hsmall
  have hf := hfine (h23 hsmall)
  have hlt : r.num < (sec + 1) * r.den := by
    have h30 : (2 : Nat) ^ 30 = 1073741824 := by decide
    rw [h30] at hf
    have hN : (sec * 1073741824 + (1073741824 - 1)) * r.den <
        (sec + 1) * r.den * 1073741824 := by
      have : sec * 1073741824 + (1073741824 - 1) < (sec + 1) * 1073741824 := by omega
      calc (sec * 1073741824 + (1073741824 - 1)) * r.den
          < (sec + 1) * 1073741824 * r.den := Nat.mul_lt_mul_of_pos_right this hpos
        _ = (sec + 1) * r.den * 1073741824 := by ring
    exact Nat.lt_of_mul_lt_mul_right (Nat.lt_of_le_of_lt hf hN)
  have h3 : r.trunc < sec + 1 := (Nat.div_lt_iff_lt_mul hpos).mpr hlt
  omega

/-- Go `int(d.Seconds())` of an `int64` duration against the seconds of `d` truncated
toward zero: equal for magnitudes below `2 ^ 23` seconds, and otherwise equal or one
further from zero. -/
theorem time.SecondsInt_bounds (d : Int) (hlo : -9223372036854775808 ≤ d)
    (hhi : d < 9223372036854775808) :
    (-(8388608 * 1000000000) < d → d < 8388608 * 1000000000 →
      time.Duration.SecondsInt d = d.tdiv 1000000000) ∧
    (0 ≤ d → d.tdiv 1000000000 ≤ time.Duration.SecondsInt d ∧
      time.Duration.SecondsInt d ≤ d.tdiv 1000000000 + 1) ∧
    (d < 0 → d.tdiv 1000000000 - 1 ≤ time.Duration.SecondsInt d ∧
      time.Duration.SecondsInt d ≤ d.tdiv 1000000000) := by
  obtain ⟨h1, h2, h3⟩ := time.SecondsAbs_trunc d (by omega)
  obtain ⟨hpos, hneg⟩ := time.tdiv_second d
  unfold time.Duration.SecondsInt
  refine ⟨?_, ?_, ?_⟩
  · intro hl hu
    have h := h3 (by omega)
    by_cases hd : d < 0
    · simp only [hd, if_true]
      rw [hneg hd, h]
    · simp only [hd, if_false]
      rw [hpos (by omega), h]
  · intro hd
    have hd2 : ¬ d < 0 := by omega
    simp only [hd2, if_false]
    rw [hpos hd]
    omega
  · intro hd
    simp only [hd, if_true]
    rw [hneg hd]
    omega

set_option maxRecDepth 20000 in
/-- Values of `int(d.Seconds())` for durations with a fraction of a second: one and a half
seconds give 1; `2 ^ 24` seconds and 999999999 nanoseconds give `2 ^ 24 + 1`, the sum being
rounded up to the next `float64`. -/
theorem time.SecondsInt_fractional :
    time.Duration.SecondsInt 1500000000 = 1 ∧
    time.Duration.SecondsInt (-1500000000) = -1 ∧
    time.Duration.SecondsInt 16777216999999999 = 16777217 := by
  decide

set_option maxRecDepth 20000 in
/-- Counterexample to C10 as stated. With `RefreshExpiry` of `2 ^ 24` seconds and 999999999
nanoseconds the cookie has `MaxAge = 16777217`: more seconds than the lifetime holds, and
not its 16777216 whole seconds. With `RefreshExpiry` of one and a half seconds `MaxAge` is
1, so `MaxAge` is not the lifetime rounded to the nearest second either. -/
theorem C10_counterexample :
    (Auth.GetRefreshCookie { sampleAuth with RefreshExpiry := 16777216999999999 }
      "abc.def.ghi" 1700000000000000000).MaxAge = 16777217 ∧
    (16777216999999999 : Int) < 16777217 * time.Second ∧
    Int.tdiv 16777216999999999 time.Second = 16777216 ∧
    (16777217 : Int) * time.Second ≠ 16777216999999999 ∧
    (Auth.GetRefreshCookie { sampleAuth with RefreshExpiry := 1500000000 }
      "abc.def.ghi" 1700000000000000000).MaxAge = 1 ∧
    (1 : Int) * time.Second ≠ 1500000000 := by
  decide

/-- Claim C10, amended. For every refresh token string and every policy (`RefreshExpiry`
being an `int64` count of nanoseconds) the cookie has the token as value, the policy's name
and path, `Expires` at the clock reading plus `RefreshExpiry`, and is http-only, secure and
same-site Lax. `MaxAge` is `int(RefreshExpiry.Seconds())`: it is exactly the number of
seconds when `RefreshExpiry` is a whole number of seconds; it is `RefreshExpiry` in seconds
truncated toward zero when the magnitude of `RefreshExpiry` is below `2 ^ 23` seconds; and
for every other `RefreshExpiry` it is that truncated value or the next whole number away
from zero. Under the default policy it is 86400. -/
theorem C10_refresh_cookie (j : Auth) (t : String) (now : time.Time)
    (hlo : -2 ^ 63 ≤ j.RefreshExpiry) (hhi : j.RefreshExpiry < 2 ^ 63) :
    (j.GetRefreshCookie t now).Value = t ∧
    (j.GetRefreshCookie t now).Name = j.CookieName ∧
    (j.GetRefreshCookie t now).Path = j.CookiePath ∧
    (j.GetRefreshCookie t now).Expires = now + j.RefreshExpiry ∧
    (j.GetRefreshCookie t now).HttpOnly = true ∧
    (j.GetRefreshCookie t now).Secure = true ∧
    (j.GetRefreshCookie t now).SameSite = .SameSiteLaxMode ∧
    (j.GetRefreshCookie t now).MaxAge = time.Duration.SecondsInt j.RefreshExpiry ∧
    (∀ s : Int, j.RefreshExpiry = s * time.Second → (j.GetRefreshCookie t now).MaxAge = s) ∧
    (-(2 ^ 23 * time.Second) < j.RefreshExpiry → j.RefreshExpiry < 2 ^ 23 * time.Second →
      (j.GetRefreshCookie t now).MaxAge = Int.tdiv j.RefreshExpiry time.Second) ∧
    (0 ≤ j.RefreshExpiry →
      Int.tdiv j.RefreshExpiry time.Second ≤ (j.GetRefreshCookie t now).MaxAge ∧
      (j.GetRefreshCookie t now).MaxAge ≤ Int.tdiv j.RefreshExpiry time.Second + 1) ∧
    (j.RefreshExpiry < 0 →
      Int.tdiv j.RefreshExpiry time.Second - 1 ≤ (j.GetRefreshCookie t now).MaxAge ∧
      (j.GetRefreshCookie t now).MaxAge ≤ Int.tdiv j.RefreshExpiry time.Second) ∧
    (sampleAuth.GetRefreshCookie t now).MaxAge = 86400 := by
  obtain ⟨hsmall, hnonneg, hneg⟩ := time.SecondsInt_bounds j.RefreshExpiry hlo hhi
  refine ⟨rfl, rfl, rfl, rfl, rfl, rfl, rfl, rfl, ?_, ?_, hnonneg, hneg, ?_⟩
  · intro s hs
    exact time.SecondsInt_whole j.RefreshExpiry s hlo hhi hs
  · intro h1 h2
    exact hsmall h1 h2
  · exact time.SecondsInt_whole sampleAuth.RefreshExpiry 86400 (by decide) (by decide)
      (by decide)

/-- Witness for C10: the default policy, whose refresh lifetime of 24 hours is a whole
number of seconds below `2 ^ 23`. -/
theorem C10_refresh_cookie_witness :
    (-2 ^ 63 ≤ sampleAuth.RefreshExpiry ∧ sampleAuth.RefreshExpiry < 2 ^ 63 ∧
      sampleAuth.RefreshExpiry = 86400 * time.Second) ∧
    (sampleAuth.GetRefreshCookie "abc.def.ghi" 1700000000000000000).MaxAge = 86400 ∧
    (sampleAuth.GetRefreshCookie "abc.def.ghi" 1700000000000000000).MaxAge =
      Int.tdiv sampleAuth.RefreshExpiry time.Second ∧
    (sampleAuth.GetRefreshCookie "abc.def.ghi" 1700000000000000000).Expires =
      1700086400000000000 ∧
    (sampleAuth.GetRefreshCookie "abc.def.ghi" 1700000000000000000).Value = "abc.def.ghi" :=
  ⟨⟨by decide, by decide, by decide⟩,
    (C10_refresh_cookie sampleAuth "abc.def.ghi" 1700000000000000000 (by decide)
      (by decide)).2.2.2.2.2.2.2.2.1 86400 (by decide),
    (C10_refresh_cookie sampleAuth "abc.def.ghi" 1700000000000000000 (by decide)
      (by decide)).2.2.2.2.2.2.2.2.2.1 (by decide) (by decide),
    by decide,
    (C10_refresh_cookie sampleAuth "abc.def.ghi" 1700000000000000000 (by decide)
      (by decide)).1⟩

/-! ## The audience claim -/

/-- The claims validation of the package does not read the audience. -/
theorem jwt.Validate_audience (now : time.Time) (c : jwt.RegisteredClaims)
    (aud : List String) :
    jwt.Validate now { c with Audience := aud } = jwt.Validate now c := rfl

/-- The key callback refuses every token whose method is not of the HMAC type. -/
theorem Auth.keyFunc_of_not_hmac (j : Auth) (token : jwt.Token) (h : token.Method ≠ .HMAC) :
    j.keyFunc token = .error ("unexpected signing method " ++ token.alg) := by
  unfold Auth.keyFunc
  cases hmeth : token.Method <;> simp_all

/-- Claim C11. Take two tokens whose decoded forms agree in signing method, `alg` entry and
every claim except possibly the audience, both carrying a signature good under the policy
secret, each presented as `Bearer <token>`. Then the two calls return the same error value,
or both return none; on success each returns its own token string and claims. The audience
may be anything: other than the policy's `Audience`, or absent. -/
theorem C11_audience_ignored (lib : jwt.Lib) (j : Auth) (w : http.ResponseWriter)
    (r1 r2 : http.Request) (t1 t2 : String) (tok1 tok2 : jwt.Token)
    (hheader1 : r1.Header.Get "Authorization" = "Bearer " ++ t1)
    (hheader2 : r2.Header.Get "Authorization" = "Bearer " ++ t2)
    (hcompact1 : ' ' ∉ t1.data) (hcompact2 : ' ' ∉ t2.data)
    (hdecode1 : lib.decode t1 = .ok tok1) (hdecode2 : lib.decode t2 = .ok tok2)
    (hmethod : tok2.Method = tok1.Method) (halg : tok2.alg = tok1.alg)
    (hclaims : tok2.Claims = { tok1.Claims with Audience := tok2.Claims.Audience })
    (hsigned1 : lib.verify tok1 (bytesOf j.Secret) = none)
    (hsigned2 : lib.verify tok2 (bytesOf j.Secret) = none) :
    ∃ res1 res2 : VerifyResult,
      j.GetTokenFromHeaderAndVerify lib w r1 =
        some (w.AddHeader "Vary" "Authorization", res1) ∧
      j.GetTokenFromHeaderAndVerify lib w r2 =
        some (w.AddHeader "Vary" "Authorization", res2) ∧
      res1.err = res2.err ∧
      (res1.err = none ↔ res2.err = none) ∧
      (res1.err = none →
        res1 = ⟨t1, some ⟨tok1.Claims⟩, none⟩ ∧ res2 = ⟨t2, some ⟨tok2.Claims⟩, none⟩) := by
  have hne : ∀ t : String, "Bearer " ++ t ≠ "" := by
    intro t h
    have := congrArg String.data h
    simp [String.data_append] at this
  have hcall1 : j.GetTokenFromHeaderAndVerify lib w r1 =
      some (w.AddHeader "Vary" "Authorization", j.verifyToken lib t1) := by
    simp [Auth.GetTokenFromHeaderAndVerify, hheader1, hne, strings.Split_bearer t1 hcompact1]
  have hcall2 : j.GetTokenFromHeaderAndVerify lib w r2 =
      some (w.AddHeader "Vary" "Authorization", j.verifyToken lib t2) := by
    simp [Auth.GetTokenFromHeaderAndVerify, hheader2, hne, strings.Split_bearer t2 hcompact2]
  have hkey : j.keyFunc tok2 = j.keyFunc tok1 := by
    simp [Auth.keyFunc, hmethod, halg]
  have hval : jwt.Validate lib.now tok2.Claims = jwt.Validate lib.now tok1.Claims := by
    rw [hclaims]
    exact jwt.Validate_audience lib.now tok1.Claims tok2.Claims.Audience
  have hiss : tok2.Claims.Issuer = tok1.Claims.Issuer := by
    rw [hclaims]
  refine ⟨j.verifyToken lib t1, j.verifyToken lib t2, hcall1, hcall2, ?_⟩
  by_cases hm : tok1.Method = .HMAC
  · have hk1 : j.keyFunc tok1 = .ok (bytesOf j.Secret) := by simp [Auth.keyFunc, hm]
    have hk2 : j.keyFunc tok2 = .ok (bytesOf j.Secret) := hkey.trans hk1
    cases hv : jwt.Validate lib.now tok1.Claims with
    | nil =>
      have hp1 : jwt.ParseWithClaims lib t1 j.keyFunc = .ok tok1.Claims := by
        simp [jwt.ParseWithClaims, hdecode1, hk1, hsigned1, hv]
      have hp2 : jwt.ParseWithClaims lib t2 j.keyFunc = .ok tok2.Claims := by
        simp [jwt.ParseWithClaims, hdecode2, hk2, hsigned2, hval, hv]
      by_cases hi : tok1.Claims.Issuer = j.Issuer
      · have hi2 : tok2.Claims.Issuer = j.Issuer := hiss.trans hi
        simp [Auth.verifyToken, hp1, hp2, hi, hi2]
      · have hi2 : ¬ tok2.Claims.Issuer = j.Issuer := fun h => hi (hiss.symm.trans h)
        simp [Auth.verifyToken, hp1, hp2, hi, hi2]
    | cons e es =>
      have hp1 : jwt.ParseWithClaims lib t1 j.keyFunc =
          .error ⟨.ErrTokenInvalidClaims, ", ".intercalate (e :: es)⟩ := by
        simp [jwt.ParseWithClaims, hdecode1, hk1, hsigned1, hv]
      have hp2 : jwt.ParseWithClaims lib t2 j.keyFunc =
          .error ⟨.ErrTokenInvalidClaims, ", ".intercalate (e :: es)⟩ := by
        simp [jwt.ParseWithClaims, hdecode2, hk2, hsigned2, hval, hv]
      simp [Auth.verifyToken, hp1, hp2, jwt.Error.not_expired_by]
  · have hk1 : j.keyFunc tok1 = .error ("unexpected signing method " ++ tok1.alg) :=
      Auth.keyFunc_of_not_hmac j tok1 hm
    have hk2 : j.keyFunc tok2 = .error ("unexpected signing method " ++ tok1.alg) :=
      hkey.trans hk1
    have hp1 : jwt.ParseWithClaims lib t1 j.keyFunc = .error ⟨.ErrTokenUnverifiable,
        "error while executing keyfunc: " ++ ("unexpected signing method " ++ tok1.alg)⟩ := by
      simp [jwt.ParseWithClaims, hdecode1, hk1]
    have hp2 : jwt.ParseWithClaims lib t2 j.keyFunc = .error ⟨.ErrTokenUnverifiable,
        "error while executing keyfunc: " ++ ("unexpected signing method " ++ tok1.alg)⟩ := by
      simp [jwt.ParseWithClaims, hdecode2, hk2]
    simp [Auth.verifyToken, hp1, hp2, jwt.Error.not_expired_by]

/-- Witness for C11: at clock 1500 the token with the audience `elsewhere.net` and the
token without audience are accepted under the policy audience `example.com`, and the calls
on the tokens with audience `example.com` and `elsewhere.net` agree; at clock 3000 both are
refused with the same error. -/
theorem C11_audience_ignored_witness :
    sampleAuth.GetTokenFromHeaderAndVerify (audienceLib 1500) emptyWriter
        (requestWith "Bearer aud.def.ghi") =
      some (emptyWriter.AddHeader "Vary" "Authorization",
        ⟨"aud.def.ghi", some ⟨{ sampleClaims with Audience := ["elsewhere.net"] }⟩, none⟩) ∧
    sampleAuth.GetTokenFromHeaderAndVerify (audienceLib 1500) emptyWriter
        (requestWith "Bearer nil.def.ghi") =
      some (emptyWriter.AddHeader "Vary" "Authorization",
        ⟨"nil.def.ghi", some ⟨{ sampleClaims with Audience := [] }⟩, none⟩) ∧
    sampleAuth.GetTokenFromHeaderAndVerify (audienceLib 3000) emptyWriter
        (requestWith "Bearer abc.def.ghi") =
      sampleAuth.GetTokenFromHeaderAndVerify (audienceLib 3000) emptyWriter
        (requestWith "Bearer aud.def.ghi") ∧
    ∃ res1 res2 : VerifyResult,
      sampleAuth.GetTokenFromHeaderAndVerify (audienceLib 1500) emptyWriter
          (requestWith "Bearer abc.def.ghi") =
        some (emptyWriter.AddHeader "Vary" "Authorization", res1) ∧
      sampleAuth.GetTokenFromHeaderAndVerify (audienceLib 1500) emptyWriter
          (requestWith "Bearer aud.def.ghi") =
        some (emptyWriter.AddHeader "Vary" "Authorization", res2) ∧
      res1.err = res2.err ∧
      (res1.err = none ↔ res2.err = none) ∧
      (res1.err = none →
        res1 = ⟨"abc.def.ghi", some ⟨sampleClaims⟩, none⟩ ∧
        res2 = ⟨"aud.def.ghi",
          some ⟨{ sampleClaims with Audience := ["elsewhere.net"] }⟩, none⟩) :=
  ⟨by decide, by decide, by decide,
    C11_audience_ignored (audienceLib 1500) sampleAuth emptyWriter
      (requestWith "Bearer abc.def.ghi") (requestWith "Bearer aud.def.ghi")
      "abc.def.ghi" "aud.def.ghi"
      ⟨"abc.def.ghi", .HMAC, "HS256", sampleClaims⟩
      ⟨"aud.def.ghi", .HMAC, "HS256", { sampleClaims with Audience := ["elsewhere.net"] }⟩
      (by decide) (by decide) (by decide) (by decide) (by rfl) (by rfl) (by rfl) (by rfl)
      (by rfl) (by decide) (by decide)⟩

/-! ## Expiry after issue -/

/-- Counterexample to C12 as stated. A policy whose lifetimes are zero (the zero value of
the fields) gives `exp = iat` in both claim sets; a lifetime of half a second read at the
start of a second gives `exp = iat`; a negative lifetime gives `exp < iat`. -/
theorem C12_counterexample :
    (Auth.accessClaims { sampleAuth with TokenExpiry := 0, RefreshExpiry := 0 } ada
      1700000000000000000 1700000000000000000).get "iat" = some (.num 1700000000) ∧
    (Auth.accessClaims { sampleAuth with TokenExpiry := 0, RefreshExpiry := 0 } ada
      1700000000000000000 1700000000000000000).get "exp" = some (.num 1700000000) ∧
    (Auth.refreshTokenClaims { sampleAuth with TokenExpiry := 0, RefreshExpiry := 0 } ada
      1700000000000000000 1700000000000000000).get "iat" = some (.num 1700000000) ∧
    (Auth.refreshTokenClaims { sampleAuth with TokenExpiry := 0, RefreshExpiry := 0 } ada
      1700000000000000000 1700000000000000000).get "exp" = some (.num 1700000000) ∧
    ¬ ((1700000000 : Int) < 1700000000) ∧
    (Auth.accessClaims { sampleAuth with TokenExpiry := 500000000 } ada
      1700000000000000000 1700000000000000000).get "exp" = some (.num 1700000000) ∧
    (Auth.accessClaims { sampleAuth with TokenExpiry := -time.Hour } ada
      1700000000000000000 1700000000000000000).get "exp" = some (.num 1699996400) ∧
    ¬ ((1700000000 : Int) < 1699996400) := by
  decide

/-- Claim C12, amended. When `TokenExpiry` and `RefreshExpiry` are at least one second and
the clock reading taken for `exp` is not earlier than the one taken for `iat`, both claim
sets satisfy `exp > iat`. In general, for readings `a`, `b` and a lifetime `d`, `Unix(a) < Unix(b + d)` holds
exactly when `b + d` reaches the start of the second after the one of `a`. -/
theorem C12_expiry_after_issued (j : Auth) (user : jwtUser) (now1 now2 now3 now4 : time.Time)
    (haccess : time.Second ≤ j.TokenExpiry) (hrefresh : time.Second ≤ j.RefreshExpiry)
    (hclock12 : now1 ≤ now2) (hclock34 : now3 ≤ now4) :
    ∃ iat exp riat rexp : Int,
      (j.accessClaims user now1 now2).get "iat" = some (.num iat) ∧
      (j.accessClaims user now1 now2).get "exp" = some (.num exp) ∧
      (j.refreshTokenClaims user now3 now4).get "iat" = some (.num riat) ∧
      (j.refreshTokenClaims user now3 now4).get "exp" = some (.num rexp) ∧
      iat < exp ∧ riat < rexp ∧
      (∀ (a b : time.Time) (d : time.Duration),
        time.Time.Unix a < time.Time.Unix (time.Time.Add b d) ↔
          (time.Time.Unix a + 1) * time.Second ≤ b + d) := by
  have key : ∀ a b d : Int, (1000000000 : Int) ≤ d → a ≤ b →
      a / 1000000000 < (b + d) / 1000000000 := by
    intro a b d hd hab
    omega
  refine ⟨time.Time.Unix now1, time.Time.Unix (time.Time.Add now2 j.TokenExpiry),
    time.Time.Unix now3, time.Time.Unix (time.Time.Add now4 j.RefreshExpiry),
    rfl, rfl, rfl, rfl, ?_, ?_, ?_⟩
  · exact key now1 now2 j.TokenExpiry haccess hclock12
  · exact key now3 now4 j.RefreshExpiry hrefresh hclock34
  · intro a b d
    have h : ∀ x y : Int, x / 1000000000 < y / 1000000000 ↔
        (x / 1000000000 + 1) * 1000000000 ≤ y := by
      intro x y
      omega
    exact h a (b + d)

/-- Witness for C12: the default policy, the four readings one nanosecond apart. -/
theorem C12_expiry_after_issued_witness :
    (time.Second ≤ sampleAuth.TokenExpiry ∧ time.Second ≤ sampleAuth.RefreshExpiry) ∧
    (sampleAuth.accessClaims ada 1700000000000000001 1700000000000000002).get "iat" =
      some (.num 1700000000) ∧
    (sampleAuth.accessClaims ada 1700000000000000001 1700000000000000002).get "exp" =
      some (.num 1700000900) ∧
    (sampleAuth.refreshTokenClaims ada 1700000000000000003 1700000000000000004).get "exp" =
      some (.num 1700086400) ∧
    ∃ iat exp riat rexp : Int,
      (sampleAuth.accessClaims ada 1700000000000000001 1700000000000000002).get "iat" =
        some (.num iat) ∧
      (sampleAuth.accessClaims ada 1700000000000000001 1700000000000000002).get "exp" =
        some (.num exp) ∧
      (sampleAuth.refreshTokenClaims ada 1700000000000000003 1700000000000000004).get "iat" =
        some (.num riat) ∧
      (sampleAuth.refreshTokenClaims ada 1700000000000000003 1700000000000000004).get "exp" =
        some (.num rexp) ∧
      iat < exp ∧ riat < rexp ∧
      (∀ (a b : time.Time) (d : time.Duration),
        time.Time.Unix a < time.Time.Unix (time.Time.Add b d) ↔
          (time.Time.Unix a + 1) * time.Second ≤ b + d) :=
  ⟨⟨by decide, by decide⟩, by decide, by decide, by decide,
    C12_expiry_after_issued sampleAuth ada 1700000000000000001 1700000000000000002
      1700000000000000003 1700000000000000004 (by decide) (by decide) (by decide)
      (by decide)⟩

/-! ## The `Vary` response header -/

/-- Claim C13. For every request, policy and package the call returns (it does not panic),
and the response writer it leaves has the header list of before with the pair
`Vary: Authorization` appended: `Authorization` is among the values of `Vary`, every value
present before under any key is still present, in the same order, and nothing else of the
writer has changed. This holds whatever the three results are. -/
theorem C13_vary_added (lib : jwt.Lib) (j : Auth) (w : http.ResponseWriter)
    (r : http.Request) :
    ∃ (w1 : http.ResponseWriter) (res : VerifyResult),
      j.GetTokenFromHeaderAndVerify lib w r = some (w1, res) ∧
      w1.header = w.header ++ [("Vary", "Authorization")] ∧
      "Authorization" ∈ w1.header.Values "Vary" ∧
      w1.header.Values "Vary" = w.header.Values "Vary" ++ ["Authorization"] ∧
      (∀ key value : String, value ∈ w.header.Values key → value ∈ w1.header.Values key) ∧
      (∀ key : String, w.header.Values key <+: w1.header.Values key) ∧
      (∀ key : String, key ≠ "Vary" → w1.header.Values key = w.header.Values key) ∧
      w1.statusCodes = w.statusCodes ∧
      w1.body = w.body := by
  obtain ⟨res, hres⟩ := Auth.GetTokenFromHeaderAndVerify_isSome lib j w r
  have hvalues : ∀ key : String,
      (w.AddHeader "Vary" "Authorization").header.Values key =
        w.header.Values key ++ (if "Vary" = key then ["Authorization"] else []) := by
    intro key
    by_cases hk : "Vary" = key <;>
      simp [http.ResponseWriter.AddHeader, http.Header.Add, http.Header.Values,
        List.filter_append, List.filter_cons, hk]
  refine ⟨w.AddHeader "Vary" "Authorization", res, hres, rfl, ?_, ?_, ?_, ?_, ?_, rfl, rfl⟩
  · rw [hvalues]; simp
  · rw [hvalues]; simp
  · intro key value hmem
    rw [hvalues]
    exact List.mem_append_left _ hmem
  · intro key
    rw [hvalues]
    exact List.prefix_append _ _
  · intro key hkey
    rw [hvalues]
    simp [Ne.symm hkey]

/-- Runs of C13 on a writer that already holds a `Vary` value, one per kind of result: no
header, malformed header, error of the package (expired token, clock 3000), foreign issuer,
and success (clock 1500). The writer ends the same in all five. -/
theorem C13_vary_added_witness :
    (∀ out ∈ [sampleAuth.GetTokenFromHeaderAndVerify (sampleLib 1500) usedWriter bareRequest,
        sampleAuth.GetTokenFromHeaderAndVerify (sampleLib 1500) usedWriter
          (requestWith "Basic abc"),
        sampleAuth.GetTokenFromHeaderAndVerify (sampleLib 3000) usedWriter
          (requestWith "Bearer abc.def.ghi"),
        sampleAuth.GetTokenFromHeaderAndVerify (sampleLib 1500) usedWriter
          (requestWith "Bearer xyz.def.ghi"),
        sampleAuth.GetTokenFromHeaderAndVerify (sampleLib 1500) usedWriter
          (requestWith "Bearer abc.def.ghi")],
      out.map (fun p => p.1) =
        some ⟨[("Vary", "Origin"), ("Access-Control-Allow-Origin", "http://localhost:3000"),
          ("Vary", "Authorization")], [], []⟩) ∧
    ∃ (w1 : http.ResponseWriter) (res : VerifyResult),
      sampleAuth.GetTokenFromHeaderAndVerify (sampleLib 1500) usedWriter bareRequest =
        some (w1, res) ∧
      w1.header.Values "Vary" = ["Origin", "Authorization"] := by
  constructor
  · decide
  · obtain ⟨w1, res, hcall, -, -, hvary, -⟩ :=
      C13_vary_added (sampleLib 1500) sampleAuth usedWriter bareRequest
    exact ⟨w1, res, hcall, by rw [hvary]; decide⟩
